import Mathlib

/-!
A verification development for the BSP/CSG geometric kernel of the three-csg
repository (file `src/core/FuzzyCAGFactory.js` and the plane/vertex modules).

The JavaScript kernel is shallowly embedded here: coordinates become exact
rationals (ℚ), the mutable pointer graphs (PolygonTreeNode trees, BSP node
graphs) become index-addressed stores (`List PTNode`, `List BspNode`) with
explicit state passing, and the iterative work-stack loops of the source become
fuel-indexed recursions whose stacks mirror the push/pop order of the source.

Two places in the source compare a floating-point square root against a bound
(`radius = radius3.length()` in the bounding-sphere early-out, and
`direction.length() < EPS` in `Line3D.fromPlanes`).  Square roots of rationals
are irrational in general, so those comparisons are embedded by the equivalent
square-free tests: for nonnegative r and s, `√r2 < s ↔ r2 < s²` and
`d > √r2 + EPS ↔ d − EPS > 0 ∧ (d − EPS)² > r2`.
-/

namespace ThreeCSG

/-- Distance epsilon of the kernel, `CONSTANTS.EPS = 0.00001`. -/
def EPS : ℚ := 1 / 100000

/-- A 3D vector with exact rational coordinates (source class `Vector`). -/
structure Vec3 where
  x : ℚ
  y : ℚ
  z : ℚ
deriving DecidableEq

namespace Vec3

/-- Source `Vector.prototype.plus`. -/
def plus (a b : Vec3) : Vec3 := ⟨a.x + b.x, a.y + b.y, a.z + b.z⟩

/-- Source `Vector.prototype.minus`. -/
def minus (a b : Vec3) : Vec3 := ⟨a.x - b.x, a.y - b.y, a.z - b.z⟩

/-- Source `Vector.prototype.times`. -/
def times (a : Vec3) (t : ℚ) : Vec3 := ⟨a.x * t, a.y * t, a.z * t⟩

/-- Source `Vector.prototype.negated`. -/
def negated (a : Vec3) : Vec3 := ⟨-a.x, -a.y, -a.z⟩

/-- Source `Vector.prototype.dot`. -/
def dot (a b : Vec3) : ℚ := a.x * b.x + a.y * b.y + a.z * b.z

/-- Source `Vector.prototype.cross`. -/
def cross (a b : Vec3) : Vec3 :=
  ⟨a.y * b.z - a.z * b.y, a.z * b.x - a.x * b.z, a.x * b.y - a.y * b.x⟩

/-- Source `Vector.prototype.lengthSquared` (`this.dot(this)`). -/
def lengthSquared (a : Vec3) : ℚ := dot a a

/-- Source `Vector.prototype.distanceToSquared`. -/
def distanceToSquared (a b : Vec3) : ℚ := lengthSquared (minus a b)

/-- Source `Vector.prototype.min` (componentwise `Math.min`). -/
def vmin (a b : Vec3) : Vec3 := ⟨min a.x b.x, min a.y b.y, min a.z b.z⟩

/-- Source `Vector.prototype.max` (componentwise `Math.max`). -/
def vmax (a b : Vec3) : Vec3 := ⟨max a.x b.x, max a.y b.y, max a.z b.z⟩

end Vec3

/-- A plane `{ p : normal · p = w }` (source class `Plane`). -/
structure Plane where
  normal : Vec3
  w : ℚ
deriving DecidableEq

namespace Plane

/-- Source `Plane.prototype.flipped`. -/
def flipped (p : Plane) : Plane := ⟨p.normal.negated, -p.w⟩

/-- The line parameter computed by `Plane.prototype.splitLineBetweenPoints`:
`labda = (w − normal·p1) / (normal·direction)`, then `NaN` is replaced by 0 and
the value is clamped to [0, 1].  In exact arithmetic `NaN` is the 0/0 case and
the infinities (x/0 with x ≠ 0) clamp to 1 (positive) or 0 (negative), exactly
as the clamps of the source do on `Infinity` and `-Infinity`. -/
def splitLineLambda (pl : Plane) (p1 p2 : Vec3) : ℚ :=
  let direction := p2.minus p1
  let num := pl.w - pl.normal.dot p1
  let den := pl.normal.dot direction
  if den = 0 then (if num = 0 then 0 else if 0 < num then 1 else 0)
  else max 0 (min 1 (num / den))

/-- Source `Plane.prototype.splitLineBetweenPoints`:
`p1 + labda · (p2 − p1)` with the clamped parameter. -/
def splitLineBetweenPoints (pl : Plane) (p1 p2 : Vec3) : Vec3 :=
  p1.plus ((p2.minus p1).times (splitLineLambda pl p1 p2))

end Plane

/-- Source class `Vertex` (wraps one position). -/
structure Vertex where
  pos : Vec3
deriving DecidableEq

namespace Vertex

/-- Source `Vertex.prototype.flipped` returns the vertex itself. -/
def flipped (v : Vertex) : Vertex := v

end Vertex

/-- Source class `Polygon`: a vertex ring, an opaque `shared` tag and a
cached plane.  The opaque per-surface metadata is abstracted to a `Nat` tag. -/
structure Polygon where
  vertices : List Vertex
  shared : Nat
  plane : Plane
deriving DecidableEq

namespace Polygon

/-- Source `Polygon.prototype.flipped`: reverse the (vertex-flipped) ring and
flip the plane. -/
def flipped (p : Polygon) : Polygon :=
  ⟨(p.vertices.map Vertex.flipped).reverse, p.shared, p.plane.flipped⟩

/-- Source `Polygon.prototype.boundingBox`: componentwise min and max of the
vertex positions (the source returns the zero vector twice for an empty ring). -/
def boundingBox (p : Polygon) : Vec3 × Vec3 :=
  match p.vertices with
  | [] => (⟨0, 0, 0⟩, ⟨0, 0, 0⟩)
  | v :: rest => rest.foldl (fun acc q => (acc.1.vmin q.pos, acc.2.vmax q.pos)) (v.pos, v.pos)

/-- Source `Polygon.prototype.boundingSphere`, with the radius kept SQUARED:
the source stores `radius = |max − middle|`; every use compares a distance
against `radius + EPS`, which is embedded square-free (see `sphereFrontOut`). -/
def boundingSphereSq (p : Polygon) : Vec3 × ℚ :=
  let box := boundingBox p
  let middle := (box.1.plus box.2).times (1 / 2)
  let radius3 := box.2.minus middle
  (middle, radius3.lengthSquared)

end Polygon

/-- The classification tags of `splitPolygonByPlane` (source result codes
0 = coplanar-front, 1 = coplanar-back, 2 = front, 3 = back, 4 = spanning). -/
inductive SplitType
  | coplanarFront
  | coplanarBack
  | front
  | back
  | spanning
deriving DecidableEq

/-- Result record of `splitPolygonByPlane`. -/
structure SplitResult where
  type : SplitType
  front : Option Polygon
  back : Option Polygon
deriving DecidableEq

/-- The duplicate-vertex removal loop of `splitPolygonByPlane` (run only on
lists of length ≥ 3).  The source walks the array with splice/index-decrement
while `prevvertex` is always set to the vertex just examined, so element i is
kept exactly when its distance² to the ORIGINAL predecessor (cyclically, the
last element for i = 0) is at least EPS². -/
def dedupVerts (l : List Vertex) : List Vertex :=
  if 3 ≤ l.length then
    match l.getLast? with
    | none => l
    | some lastV =>
      (l.zip (lastV :: l.dropLast)).filterMap fun vp =>
        if vp.1.pos.distanceToSquared vp.2.pos < EPS * EPS then none else some vp.1
  else l

/-- One edge step of the SPANNING walk of `splitPolygonByPlane`: an edge whose
endpoints are on one side contributes its first vertex to that side; an edge
that changes sides contributes the first vertex to its side and the plane
intersection point to both sides. -/
def spanStep (pl : Plane) (acc : List Vertex × List Vertex)
    (e : (Vertex × Bool) × (Vertex × Bool)) : List Vertex × List Vertex :=
  if e.1.2 = e.2.2 then
    if e.1.2 then (acc.1, acc.2 ++ [e.1.1]) else (acc.1 ++ [e.1.1], acc.2)
  else
    let ip : Vertex := ⟨pl.splitLineBetweenPoints e.1.1.pos e.2.1.pos⟩
    if e.1.2 then (acc.1 ++ [ip], acc.2 ++ [e.1.1, ip])
    else (acc.1 ++ [e.1.1, ip], acc.2 ++ [ip])

/-- The full SPANNING walk: every vertex is paired with its cyclic successor
(`nextvertexindex` wraps to 0) and `spanStep` is folded over the edge ring,
producing the raw front and back vertex lists. -/
def spanWalk (pl : Plane) (vs : List Vertex) (bs : List Bool) : List Vertex × List Vertex :=
  let ring := vs.zip bs
  (ring.zip (ring.rotate 1)).foldl (spanStep pl) ([], [])

/-- Source function `splitPolygonByPlane` (lines 498-600).  A polygon whose
cached plane equals the splitting plane is coplanar-front immediately; else the
signed distances are taken, `hasfront`/`hasback` use the strict EPS thresholds,
the all-coplanar case tie-breaks on the normal dot product, and the spanning
case runs the walk (with the per-vertex back flags computed as `t < 0`),
deduplicates both sides, and keeps a fragment only if ≥ 3 vertices remain. -/
def splitPolygonByPlane (plane : Plane) (poly : Polygon) : SplitResult :=
  if poly.plane = plane then ⟨.coplanarFront, none, none⟩
  else
    let ts := poly.vertices.map fun v => plane.normal.dot v.pos - plane.w
    let hasfront := ts.any fun t => decide (EPS < t)
    let hasback := ts.any fun t => decide (t < -EPS)
    if !hasfront && !hasback then
      if 0 ≤ plane.normal.dot poly.plane.normal then ⟨.coplanarFront, none, none⟩
      else ⟨.coplanarBack, none, none⟩
    else if !hasback then ⟨.front, none, none⟩
    else if !hasfront then ⟨.back, none, none⟩
    else
      let bs := ts.map fun t => decide (t < 0)
      let fb := spanWalk plane poly.vertices bs
      let fr := dedupVerts fb.1
      let bk := dedupVerts fb.2
      ⟨.spanning,
        if 3 ≤ fr.length then some ⟨fr, poly.shared, poly.plane⟩ else none,
        if 3 ≤ bk.length then some ⟨bk, poly.shared, poly.plane⟩ else none⟩

/-- Square-free embedding of the bounding-sphere front early-out of
`PolygonTreeNode.prototype._splitByPlane`: the source tests
`d > sphereradius` with `sphereradius = √r2 + EPS`, which for the nonnegative
root is equivalent to `d − EPS > 0 ∧ (d − EPS)² > r2`. -/
def sphereFrontOut (d r2 : ℚ) : Bool :=
  decide (0 < d - EPS) && decide (r2 < (d - EPS) ^ 2)

/-- Square-free embedding of the bounding-sphere back early-out:
`d < −(√r2 + EPS)` is equivalent to `−d − EPS > 0 ∧ (−d − EPS)² > r2`. -/
def sphereBackOut (d r2 : ℚ) : Bool :=
  decide (0 < -d - EPS) && decide (r2 < (-d - EPS) ^ 2)

/-- A node of the polygon derivation tree (source class `PolygonTreeNode`).
The mutable pointer structure is embedded as an index-addressed store: `parent`
and `children` hold indices into a `PTStore`. -/
structure PTNode where
  parent : Option Nat
  children : List Nat
  polygon : Option Polygon
  removed : Bool
deriving DecidableEq

/-- A fresh root node (the `PolygonTreeNode` constructor). -/
def PTNode.rootNode : PTNode := ⟨none, [], none, false⟩

/-- The polygon-tree store; index 0 is always the root. -/
abbrev PTStore := List PTNode

/-- Read a node (out-of-range reads return a blank root; they never occur on
the executions the theorems talk about). -/
def getPT (s : PTStore) (i : Nat) : PTNode := s.getD i PTNode.rootNode

/-- Write a node (a no-op out of range, as with `List.set`). -/
def setPT (s : PTStore) (i : Nat) (n : PTNode) : PTStore := s.set i n

/-- Source `PolygonTreeNode.prototype.addChild`: allocate a leaf holding the
polygon and append its index to the children of `pid`; returns the new index. -/
def addChild (s : PTStore) (pid : Nat) (p : Polygon) : PTStore × Nat :=
  let nid := s.length
  let s1 := s ++ [⟨some pid, [], some p, false⟩]
  let pn := getPT s1 pid
  (setPT s1 pid { pn with children := pn.children ++ [nid] }, nid)

/-- Source `PolygonTreeNode.prototype.recursivelyInvalidatePolygon`: walk the
parent chain nulling `polygon` until a node whose polygon is already null (or
the root, which the loop re-tests and then exits) is reached.  Parent indices
are strictly smaller than child indices, so the store length bounds the walk. -/
def invalidateUp : Nat → PTStore → Nat → PTStore
  | 0, s, _ => s
  | fuel + 1, s, id =>
    let n := getPT s id
    match n.polygon with
    | none => s
    | some _ =>
      let s1 := setPT s id { n with polygon := none }
      match n.parent with
      | some pid => invalidateUp fuel s1 pid
      | none => s1

/-- Source `PolygonTreeNode.prototype.remove`: mark removed, detach from the
parent children list, and invalidate the polygons of the ancestors.  (The
source dereferences `this.parent` unconditionally; a parentless node is left
detached here — that path is unreachable in the clip executions modelled.) -/
def ptRemove (s : PTStore) (id : Nat) : PTStore :=
  let n := getPT s id
  if n.removed then s
  else
    let s1 := setPT s id { n with removed := true }
    match n.parent with
    | none => s1
    | some pid =>
      let pn := getPT s1 pid
      let s2 := setPT s1 pid { pn with children := pn.children.erase id }
      invalidateUp (s2.length + 1) s2 pid

/-- The queue loop of `PolygonTreeNode.prototype.getPolygons`: the queue holds
children lists; a node with a live polygon emits it (its descendants are NOT
visited), a broken node enqueues its children. -/
def getPolygonsGo (s : PTStore) : Nat → List (List Nat) → List Polygon
  | 0, _ => []
  | _ + 1, [] => []
  | fuel + 1, g :: rest =>
    let polys := g.filterMap fun i => (getPT s i).polygon
    let newgroups := g.filterMap fun i =>
      let n := getPT s i
      if n.polygon.isSome then none else some n.children
    polys ++ getPolygonsGo s fuel (rest ++ newgroups)

/-- `getPolygons` started at the root (as `Tree.prototype.allPolygons` does).
Each queue entry is the children list of a distinct node, so the store length
plus two is enough fuel. -/
def ptAllPolygons (s : PTStore) : List Polygon :=
  getPolygonsGo s (s.length + 2) [[0]]

/-- The queue loop of `PolygonTreeNode.prototype.invertSub`: flip the polygon
of every node reachable from the frontier (including broken interior nodes)
and keep descending. -/
def ptInvertGo (s : PTStore) : Nat → List Nat → PTStore
  | 0, _ => s
  | _ + 1, [] => s
  | fuel + 1, id :: rest =>
    let n := getPT s id
    let s1 := match n.polygon with
      | some p => setPT s id { n with polygon := some p.flipped }
      | none => s
    ptInvertGo s1 fuel (rest ++ n.children)

/-- Source `PolygonTreeNode.prototype.invert` called on the root. -/
def ptInvert (s : PTStore) : PTStore := ptInvertGo s (s.length + 2) [0]

/-- Classification slots of a split, as the source names the four list
arguments of `splitByPlane`. -/
inductive SDest
  | cf
  | cb
  | fr
  | bk
deriving DecidableEq

/-- Source `PolygonTreeNode.prototype._splitByPlane` on a childless node: the
bounding-sphere early-out, then `splitPolygonByPlane`; a spanning polygon adds
one child per surviving fragment (front child first, as the source does).
Appends to the four destination lists are returned as an ordered event list so
every call site can reproduce the exact aliasing of its list arguments. -/
def splitLeaf (s : PTStore) (id : Nat) (pl : Plane) : PTStore × List (SDest × Nat) :=
  match (getPT s id).polygon with
  | none => (s, [])
  | some p =>
    let bound := p.boundingSphereSq
    let d := pl.normal.dot bound.1 - pl.w
    if sphereFrontOut d bound.2 then (s, [(.fr, id)])
    else if sphereBackOut d bound.2 then (s, [(.bk, id)])
    else
      let sr := splitPolygonByPlane pl p
      match sr.type with
      | .coplanarFront => (s, [(.cf, id)])
      | .coplanarBack => (s, [(.cb, id)])
      | .front => (s, [(.fr, id)])
      | .back => (s, [(.bk, id)])
      | .spanning =>
        let s1ev := match sr.front with
          | some f =>
            let r := addChild s id f
            (r.1, [((SDest.fr), r.2)])
          | none => (s, [])
        let s2ev := match sr.back with
          | some g =>
            let r := addChild s1ev.1 id g
            (r.1, [((SDest.bk), r.2)])
          | none => (s1ev.1, [])
        (s2ev.1, s1ev.2 ++ s2ev.2)

/-- One sibling group of the descent loop of
`PolygonTreeNode.prototype.splitByPlane`: leaves are split in order, interior
nodes contribute their children lists for later processing. -/
def splitGroup (pl : Plane) : PTStore → List Nat → PTStore × List (SDest × Nat) × List (List Nat)
  | s, [] => (s, [], [])
  | s, id :: rest =>
    let n := getPT s id
    if n.children.isEmpty then
      let r1 := splitLeaf s id pl
      let r2 := splitGroup pl r1.1 rest
      (r2.1, r1.2 ++ r2.2.1, r2.2.2)
    else
      let r2 := splitGroup pl s rest
      (r2.1, r2.2.1, n.children :: r2.2.2)

/-- The queue of sibling groups of `splitByPlane` (the source uses a growing
array scanned left to right). -/
def splitQueue (pl : Plane) : Nat → PTStore → List (List Nat) → PTStore × List (SDest × Nat)
  | 0, s, _ => (s, [])
  | _ + 1, s, [] => (s, [])
  | fuel + 1, s, g :: rest =>
    let r1 := splitGroup pl s g
    let r2 := splitQueue pl fuel r1.1 (rest ++ r1.2.2)
    (r2.1, r1.2.1 ++ r2.2)

/-- Source `PolygonTreeNode.prototype.splitByPlane`: descend to the live
leaves of a broken node, or split the node itself if it is a leaf.  Only
children lists of pre-existing interior nodes are ever enqueued, so the store
length bounds the queue. -/
def ptnSplitByPlane (s : PTStore) (id : Nat) (pl : Plane) : PTStore × List (SDest × Nat) :=
  let n := getPT s id
  if n.children.isEmpty then splitLeaf s id pl
  else splitQueue pl (s.length + 2) s [n.children]

/-- A BSP node (source class `Node`), with child pointers as store indices. -/
structure BspNode where
  plane : Option Plane
  front : Option Nat
  back : Option Nat
  polygontreenodes : List Nat
  parent : Option Nat
deriving DecidableEq

/-- The `Node` constructor. -/
def BspNode.mk0 (par : Option Nat) : BspNode := ⟨none, none, none, [], par⟩

/-- The BSP node store; index 0 is always the root node of its tree. -/
abbrev BspStore := List BspNode

/-- Read a BSP node. -/
def getBsp (s : BspStore) (i : Nat) : BspNode := s.getD i (BspNode.mk0 none)

/-- Write a BSP node. -/
def setBsp (s : BspStore) (i : Nat) (n : BspNode) : BspStore := s.set i n

/-- Destination slots a call site routes split events into: the own polygon
list of the BSP node, the local `frontnodes`, or the local `backnodes`. -/
inductive RDest
  | selfList
  | fr
  | bk
deriving DecidableEq

/-- One append of the event distribution: the event id goes to the list its
destination names. -/
def routeStep (f : SDest → RDest) (acc : List Nat × List Nat × List Nat)
    (e : SDest × Nat) : List Nat × List Nat × List Nat :=
  match f e.1 with
  | .selfList => (acc.1 ++ [e.2], acc.2.1, acc.2.2)
  | .fr => (acc.1, acc.2.1 ++ [e.2], acc.2.2)
  | .bk => (acc.1, acc.2.1, acc.2.2 ++ [e.2])

/-- Distribute an ordered event list over the three destination lists of a
call site.  This reproduces the source exactly: there the four list arguments
alias at most three distinct arrays, and appends interleave in event order. -/
def routeEvents (f : SDest → RDest) (evs : List (SDest × Nat)) :
    List Nat × List Nat × List Nat :=
  evs.foldl (routeStep f) ([], [], [])

/-- The aliasing used by `Node.prototype.addPolygonTreeNodes` (line 970):
`splitByPlane(plane, this.polygontreenodes, backnodes, frontnodes, backnodes)`
— coplanar-front into the own list, coplanar-back into `backnodes`. -/
def addPTNroute : SDest → RDest
  | .cf => .selfList
  | .cb => .bk
  | .fr => .fr
  | .bk => .bk

/-- Split every input node by the chosen plane, accumulating the routed
destination lists in input order (the loop body of `addPolygonTreeNodes`). -/
def addPTNsplitAll (pl : Plane) : PTStore → List Nat →
    List Nat × List Nat × List Nat → PTStore × (List Nat × List Nat × List Nat)
  | s, [], acc => (s, acc)
  | s, pid :: rest, acc =>
    let r := ptnSplitByPlane s pid pl
    let e := routeEvents addPTNroute r.2
    addPTNsplitAll pl r.1 rest (acc.1 ++ e.1, acc.2.1 ++ e.2.1, acc.2.2 ++ e.2.2)

/-- The degenerate polygon used as the (unreachable) default when a node with
no polygon is asked for its plane; the source would throw there. -/
def degeneratePolygon : Polygon := ⟨[], 0, ⟨⟨0, 0, 0⟩, 0⟩⟩

/-- The `if (!node.front) node.front = new Node(node)` step of
`addPolygonTreeNodes` together with the push of the front task. -/
def ensureFront (bsp : BspStore) (nid : Nat) (frN : List Nat) :
    BspStore × List (Nat × List Nat) :=
  if frN.isEmpty then (bsp, [])
  else match (getBsp bsp nid).front with
    | some fid => (bsp, [(fid, frN)])
    | none =>
      let fid := bsp.length
      (setBsp (bsp ++ [BspNode.mk0 (some nid)]) nid
        { getBsp bsp nid with front := some fid }, [(fid, frN)])

/-- The `if (!node.back) node.back = new Node(node)` step of
`addPolygonTreeNodes` together with the push of the back task. -/
def ensureBack (bsp : BspStore) (nid : Nat) (bkN : List Nat) :
    BspStore × List (Nat × List Nat) :=
  if bkN.isEmpty then (bsp, [])
  else match (getBsp bsp nid).back with
    | some bid => (bsp, [(bid, bkN)])
    | none =>
      let bid := bsp.length
      (setBsp (bsp ++ [BspNode.mk0 (some nid)]) nid
        { getBsp bsp nid with back := some bid }, [(bid, bkN)])

/-- The body of one iteration of the work-stack loop of
`Node.prototype.addPolygonTreeNodes`, after the splitting plane is fixed:
split and route all inputs, append the `selfList` events to the own polygon
list, set the plane, and create the front/back children on demand (front
first, as in the source); returns the new stores and the pushed tasks in pop
order (the back task, pushed last, is popped first). -/
def addPTNrun (pt : PTStore) (bsp : BspStore) (nid : Nat) (ptns : List Nat)
    (pl : Plane) : PTStore × BspStore × List (Nat × List Nat) :=
  let node := getBsp bsp nid
  let r := addPTNsplitAll pl pt ptns ([], [], [])
  let bsp2 := setBsp bsp nid
    { node with plane := some pl, polygontreenodes := node.polygontreenodes ++ r.2.1 }
  let sf := ensureFront bsp2 nid r.2.2.1
  let sb := ensureBack sf.1 nid r.2.2.2
  (r.1, sb.1, sb.2 ++ sf.2)

/-- One iteration of the work-stack loop of `addPolygonTreeNodes`: the plane
of the first input polygon is picked if the node has none (the source's
`if (!node.plane) { bestplane = polygontreenodes[0].getPolygon().plane; ... }`),
then the body runs with that plane. -/
def addPTNprocess (pt : PTStore) (bsp : BspStore) (nid : Nat) (ptns : List Nat) :
    PTStore × BspStore × List (Nat × List Nat) :=
  addPTNrun pt bsp nid ptns
    (match (getBsp bsp nid).plane with
     | some pl => pl
     | none => ((getPT pt (ptns.headD 0)).polygon.getD degeneratePolygon).plane)

/-- Source `Node.prototype.addPolygonTreeNodes`, driven by the explicit work
stack of the source (tasks are processed LIFO; the back task, pushed last, is
popped first). -/
def addPolygonTreeNodes : Nat → PTStore → BspStore → List (Nat × List Nat) →
    PTStore × BspStore
  | 0, pt, bsp, _ => (pt, bsp)
  | _ + 1, pt, bsp, [] => (pt, bsp)
  | fuel + 1, pt, bsp, (nid, ptns) :: rest =>
    if ptns.isEmpty then addPolygonTreeNodes fuel pt bsp rest
    else
      let r := addPTNprocess pt bsp nid ptns
      addPolygonTreeNodes fuel r.1 r.2.1 (r.2.2 ++ rest)

/-- The aliasing used by `Node.prototype.clipPolygons` (line 913): coplanar
front goes to `frontnodes` unless `alsoRemovecoplanarFront` is set (then to
`backnodes`); coplanar back always goes to `backnodes`. -/
def clipRoute (flag : Bool) : SDest → RDest
  | .cf => if flag then .bk else .fr
  | .cb => .bk
  | .fr => .fr
  | .bk => .bk

/-- Split the incoming polygon-tree nodes against the clip plane, skipping
removed nodes, accumulating `frontnodes` and `backnodes` in order (the loop
body of `clipPolygons`). -/
def clipSplitAll (pl : Plane) (flag : Bool) : PTStore → List Nat →
    List Nat × List Nat → PTStore × (List Nat × List Nat)
  | s, [], acc => (s, acc)
  | s, pid :: rest, acc =>
    if (getPT s pid).removed then clipSplitAll pl flag s rest acc
    else
      let r := ptnSplitByPlane s pid pl
      let e := routeEvents (clipRoute flag) r.2
      clipSplitAll pl flag r.1 rest (acc.1 ++ e.2.1, acc.2 ++ e.2.2)

/-- Remove a list of polygon-tree nodes in order (the delete loop of
`clipPolygons` when there is no back subtree). -/
def removeAll : PTStore → List Nat → PTStore
  | s, [] => s
  | s, id :: rest => removeAll (ptRemove s id) rest

/-- Source `Node.prototype.clipPolygons`, clipping nodes of the polygon store
`pt` against the BSP `bspO` of the other tree: at a node with a plane the
inputs are split and routed; surviving fronts descend into the front child (or
survive at a missing front child), backs descend into the back child or are
removed when there is none.  Work-stack order as in the source. -/
def clipPolygons : Nat → BspStore → PTStore → Bool → List (Nat × List Nat) → PTStore
  | 0, _, pt, _, _ => pt
  | _ + 1, _, pt, _, [] => pt
  | fuel + 1, bspO, pt, flag, (nid, ptns) :: rest =>
    let node := getBsp bspO nid
    match node.plane with
    | none => clipPolygons fuel bspO pt flag rest
    | some pl =>
      let r := clipSplitAll pl flag pt ptns ([], [])
      let pt2 := r.1
      let frN := r.2.1
      let bkN := r.2.2
      let ftask := match node.front with
        | some fid => if frN.isEmpty then [] else [(fid, frN)]
        | none => ([] : List (Nat × List Nat))
      let step := match node.back with
        | some bid => (pt2, if bkN.isEmpty then [] else [(bid, bkN)])
        | none => (removeAll pt2 bkN, ([] : List (Nat × List Nat)))
      clipPolygons fuel bspO step.1 flag (step.2 ++ ftask ++ rest)

/-- Source `Node.prototype.clipTo`: walk the own BSP (stack order as in the
source: back child popped before front child) and clip each node polygon list
against the root of the other BSP. -/
def nodeClipToGo (bspSelf bspOther : BspStore) (flag : Bool) (clipFuel : Nat) :
    Nat → PTStore → List Nat → PTStore
  | 0, pt, _ => pt
  | _ + 1, pt, [] => pt
  | fuel + 1, pt, nid :: rest =>
    let node := getBsp bspSelf nid
    let pt1 := if node.polygontreenodes.isEmpty then pt
      else clipPolygons clipFuel bspOther pt flag [(0, node.polygontreenodes)]
    let stack := (match node.back with | some b => [b] | none => []) ++
      (match node.front with | some f => [f] | none => []) ++ rest
    nodeClipToGo bspSelf bspOther flag clipFuel fuel pt1 stack

/-- Source class `Tree`: the polygon derivation forest and the BSP over it. -/
structure TreeT where
  pt : PTStore
  bsp : BspStore
deriving DecidableEq

/-- Source `Tree.prototype.addPolygons`: add a child of the polygon-tree root
per polygon and insert all of them into the root BSP node. -/
def Tree.addPolygons (fuel : Nat) (t : TreeT) (polys : List Polygon) : TreeT :=
  let r := polys.foldl
    (fun acc p =>
      let a := addChild acc.1 0 p
      (a.1, acc.2 ++ [a.2]))
    (t.pt, ([] : List Nat))
  let r2 := addPolygonTreeNodes fuel r.1 t.bsp [(0, r.2)]
  ⟨r2.1, r2.2⟩

/-- The `Tree` constructor: fresh roots, then `addPolygons`. -/
def Tree.new (fuel : Nat) (polys : List Polygon) : TreeT :=
  Tree.addPolygons fuel ⟨[PTNode.rootNode], [BspNode.mk0 none]⟩ polys

/-- Source `Node.prototype.invert`: flip every plane and swap the children of
every node.  Every allocated BSP node is reachable from the root, so this is
the queue walk of the source as a map over the store. -/
def bspInvert (s : BspStore) : BspStore :=
  s.map fun n => { n with plane := n.plane.map Plane.flipped, front := n.back, back := n.front }

/-- Source `Tree.prototype.invert`. -/
def Tree.invert (t : TreeT) : TreeT := ⟨ptInvert t.pt, bspInvert t.bsp⟩

/-- Source `Tree.prototype.allPolygons`. -/
def Tree.allPolygons (t : TreeT) : List Polygon := ptAllPolygons t.pt

/-- Source `Tree.prototype.clipTo`: the second argument is optional in the
source (`alsoRemovecoplanarFront = !!alsoRemovecoplanarFront` coerces a
missing argument to `false`), hence the `Option Bool`. -/
def Tree.clipTo (fuel : Nat) (t other : TreeT) (flag : Option Bool) : TreeT :=
  ⟨nodeClipToGo t.bsp other.bsp (flag.getD false) fuel (t.bsp.length + 2) t.pt [0], t.bsp⟩

/-- Source class `CSG` (the retesselation/canonicalization caches are the two
flags; the `properties` dictionary carries no geometry and is omitted). -/
structure CSG where
  polygons : List Polygon
  isCanonicalized : Bool
  isRetesselated : Bool
deriving DecidableEq

/-- Source `fromPolygons`. -/
def fromPolygons (polys : List Polygon) : CSG := ⟨polys, false, false⟩

/-- Source `bounds(csg)`: fold min/max of the polygon bounding boxes, with the
zero box for an empty solid. -/
def csgBounds (c : CSG) : Vec3 × Vec3 :=
  match c.polygons with
  | [] => (⟨0, 0, 0⟩, ⟨0, 0, 0⟩)
  | p :: rest => rest.foldl
      (fun acc q => (acc.1.vmin q.boundingBox.1, acc.2.vmax q.boundingBox.2))
      p.boundingBox

/-- Source `CSG.prototype.mayOverlap` (lines 264-278): false when either
polygon list is empty, else the six strict axis-separation tests. -/
def mayOverlap (a b : CSG) : Bool :=
  if a.polygons.isEmpty || b.polygons.isEmpty then false
  else
    let mb := csgBounds a
    let ob := csgBounds b
    if mb.2.x < ob.1.x then false
    else if ob.2.x < mb.1.x then false
    else if mb.2.y < ob.1.y then false
    else if ob.2.y < mb.1.y then false
    else if mb.2.z < ob.1.z then false
    else if ob.2.z < mb.1.z then false
    else true

/-- The fast path of `unionSub`: concatenate the polygon lists and AND the
two caches; no tree of either kind is constructed. -/
def unionFastPath (a b : CSG) : CSG :=
  { polygons := a.polygons ++ b.polygons,
    isCanonicalized := a.isCanonicalized && b.isCanonicalized,
    isRetesselated := a.isRetesselated && b.isRetesselated }

/-- Source `CSG.prototype.unionSub` (lines 120-146).  The `retesselate` and
`canonicalize` parameters are `undefined` (falsy) at the call sites the claims
concern, so the two conditional post-passes are omitted.  In the overlap
branch the first clip passes `false` explicitly; the remaining three clips
omit the flag. -/
def unionSub (fuel : Nat) (a0 b0 : CSG) : CSG :=
  if mayOverlap a0 b0 = false then unionFastPath a0 b0
  else
    let a := Tree.new fuel a0.polygons
    let b := Tree.new fuel b0.polygons
    let a := Tree.clipTo fuel a b (some false)
    let b := Tree.clipTo fuel b a none
    let b := Tree.invert b
    let b := Tree.clipTo fuel b a none
    let b := Tree.invert b
    fromPolygons (Tree.allPolygons a ++ Tree.allPolygons b)

/-- Source `CSG.prototype.subtractSub` (lines 180-193), with the falsy
`retesselate`/`canonicalize` post-passes omitted as in `unionSub`.  The first
clip omits its flag (the source coerces the missing argument to `false`); the
second passes `true`. -/
def subtractSub (fuel : Nat) (a0 b0 : CSG) : CSG :=
  let a := Tree.new fuel a0.polygons
  let b := Tree.new fuel b0.polygons
  let a := Tree.invert a
  let a := Tree.clipTo fuel a b none
  let b := Tree.clipTo fuel b a (some true)
  let a := Tree.addPolygons fuel a (Tree.allPolygons b)
  let a := Tree.invert a
  fromPolygons (Tree.allPolygons a)

/-- Modelled on the wording of the specification, section 4.4: Difference(A,B)
runs `A.invert(); A.clipTo(B, false); B.clipTo(A, true);
A.addPolygons(B.allPolygons()); A.invert();` on the two BSP trees built from
the polygons of A and of B, with the coplanar-removal flag `true` only on the
second clip, and returns a new solid built from the remaining polygons of A. -/
def differenceSpecSeq (fuel : Nat) (a0 b0 : CSG) : CSG :=
  let a := Tree.new fuel a0.polygons
  let b := Tree.new fuel b0.polygons
  let a := Tree.invert a
  let a := Tree.clipTo fuel a b (some false)
  let b := Tree.clipTo fuel b a (some true)
  let a := Tree.addPolygons fuel a (Tree.allPolygons b)
  let a := Tree.invert a
  fromPolygons (Tree.allPolygons a)

/-- JavaScript `Math.round`: round half up, `⌊x + 1/2⌋`. -/
def jsRound (q : ℚ) : ℤ := ⌊q + 1 / 2⌋

/-- The canonical lookup key of `FuzzyFactory.prototype.lookupOrCreate`:
round each element times the multiplier.  The source joins the quantized
values with a separator into a string; a list of integers carries the same
information injectively. -/
def keyOf (m : ℚ) (els : List ℚ) : List ℤ := els.map fun e => jsRound (e * m)

/-- The 2^d corner keys under which a fresh object is stored: every
combination of `⌊el·m⌋` and `⌊el·m⌋ + 1` per dimension. -/
def cornerKeys (m : ℚ) : List ℚ → List (List ℤ)
  | [] => [[]]
  | e :: rest =>
    let f := ⌊e * m⌋
    (cornerKeys m rest).map (fun k => f :: k) ++
      (cornerKeys m rest).map (fun k => (f + 1) :: k)

/-- The lookup table: an association list, with later insertions shadowing
earlier ones as assignment into a JavaScript object does. -/
def ffLookup : List (List ℤ × Nat) → List ℤ → Option Nat
  | [], _ => none
  | e :: rest, key => if e.1 = key then some e.2 else ffLookup rest key

/-- Source class `FuzzyFactory`.  Created objects are identified by a creation
counter (`nextId`), standing for the object identity of the JavaScript value
the `creatorCallback` returns; `numdimensions` is unused by the source and
omitted; `multiplier = 1 / tolerance`. -/
structure FuzzyFactory where
  table : List (List ℤ × Nat)
  nextId : Nat
  multiplier : ℚ
deriving DecidableEq

/-- A fresh factory of the given tolerance (the `FuzzyFactory` constructor). -/
def FuzzyFactory.empty (tolerance : ℚ) : FuzzyFactory := ⟨[], 0, 1 / tolerance⟩

/-- Source `FuzzyFactory.prototype.lookupOrCreate`: look the rounded key up;
on a miss create a fresh object and register it under all 2^d corner keys. -/
def lookupOrCreate (f : FuzzyFactory) (els : List ℚ) : Nat × FuzzyFactory :=
  let key := keyOf f.multiplier els
  match ffLookup f.table key with
  | some v => (v, f)
  | none =>
    let id := f.nextId
    (id, { table := (cornerKeys f.multiplier els).map (fun k => (k, id)) ++ f.table,
           nextId := id + 1, multiplier := f.multiplier })

/-- Source `solve2Linear` (Cramer).  Exact rationals have no `Infinity`: a
zero determinant yields 0 where the source yields infinite components; no
claim depends on the singular case. -/
def solve2Linear (a b c d u v : ℚ) : ℚ × ℚ :=
  let det := a * d - b * c
  let invdet := 1 / det
  ((u * d - b * v) * invdet, (-u * c + a * v) * invdet)

/-- Source class `Line3D`.  The direction field here holds the cross product
BEFORE the unit scaling: the source divides by the (generally irrational)
length, a positive factor, which exact arithmetic cannot represent; the
stored vector is the positive multiple of the unit direction of the source. -/
structure Line3D where
  point : Vec3
  direction : Vec3
deriving DecidableEq

/-- Source `Line3D.fromPlanes` (lines 1344-1371): fail (the source throws)
exactly when the cross product of the normals is shorter than EPS — embedded
square-free as `lengthSquared < EPS²` — and otherwise solve for a point with
the dominant direction component zeroed. -/
def Line3D.fromPlanes (p1 p2 : Plane) : Option Line3D :=
  let direction := p1.normal.cross p2.normal
  if direction.lengthSquared < EPS ^ 2 then none
  else
    let mabsx := |direction.x|
    let mabsy := |direction.y|
    let mabsz := |direction.z|
    let origin :=
      if mabsy ≤ mabsx && mabsz ≤ mabsx then
        let r := solve2Linear p1.normal.y p1.normal.z p2.normal.y p2.normal.z p1.w p2.w
        (⟨0, r.1, r.2⟩ : Vec3)
      else if mabsx ≤ mabsy && mabsz ≤ mabsy then
        let r := solve2Linear p1.normal.x p1.normal.z p2.normal.x p2.normal.z p1.w p2.w
        (⟨r.1, 0, r.2⟩ : Vec3)
      else
        let r := solve2Linear p1.normal.x p1.normal.y p2.normal.x p2.normal.y p1.w p2.w
        (⟨r.1, r.2, 0⟩ : Vec3)
    some ⟨origin, direction⟩

/-- Concrete data used by witnesses and counterexamples: the unit square in
the z = 0 plane. -/
def sqPoly : Polygon :=
  ⟨[⟨⟨1, -1, 0⟩⟩, ⟨⟨1, 1, 0⟩⟩, ⟨⟨-1, 1, 0⟩⟩, ⟨⟨-1, -1, 0⟩⟩], 0, ⟨⟨0, 0, 1⟩, 0⟩⟩

/-- The plane x = 0, which splits `sqPoly` in half. -/
def planeX : Plane := ⟨⟨1, 0, 0⟩, 0⟩

/-- The square translated by 10 along x (used for the disjoint fast path). -/
def sqPolyFar : Polygon :=
  ⟨[⟨⟨11, -1, 0⟩⟩, ⟨⟨11, 1, 0⟩⟩, ⟨⟨9, 1, 0⟩⟩, ⟨⟨9, -1, 0⟩⟩], 0, ⟨⟨0, 0, 1⟩, 0⟩⟩

/-- Adding the zero-scaled direction to a point gives the point back. -/
theorem plus_times_zero (p q : Vec3) : p.plus (q.times 0) = p := by
  cases p
  cases q
  simp [Vec3.plus, Vec3.times]

/-- C1: For every pair of solids A and B, the difference operation executes
exactly the sequence `A.invert(); A.clipTo(B, false); B.clipTo(A, true);
A.addPolygons(B.allPolygons()); A.invert()` on the two BSP trees built from
the polygons of A and of B, with the coplanar-removal flag true only on the
second clip, and returns a new solid built from the remaining polygons of A.
`subtractSub` is the translation of the source (whose first clip omits the
flag, coerced to false); `differenceSpecSeq` is modelled on the wording of the
specification; they agree on every input and every fuel. -/
theorem C1_difference_sequence (fuel : Nat) (a b : CSG) :
    subtractSub fuel a b = differenceSpecSeq fuel a b := rfl

/-- The six strict axis-separation tests of `mayOverlap`, as a predicate: the
two bounding boxes are disjoint along at least one coordinate axis. -/
def disjointOnSomeAxis (a b : CSG) : Bool :=
  decide ((csgBounds a).2.x < (csgBounds b).1.x) ||
  decide ((csgBounds b).2.x < (csgBounds a).1.x) ||
  decide ((csgBounds a).2.y < (csgBounds b).1.y) ||
  decide ((csgBounds b).2.y < (csgBounds a).1.y) ||
  decide ((csgBounds a).2.z < (csgBounds b).1.z) ||
  decide ((csgBounds b).2.z < (csgBounds a).1.z)

/-- Axis separation (or an empty operand) makes `mayOverlap` false. -/
theorem mayOverlap_false_of_disjoint (a b : CSG)
    (h : disjointOnSomeAxis a b = true) : mayOverlap a b = false := by
  unfold mayOverlap
  by_cases he : a.polygons.isEmpty || b.polygons.isEmpty
  · simp [he]
  · simp only [he, Bool.false_eq_true, if_false]
    simp only [disjointOnSomeAxis, Bool.or_eq_true, decide_eq_true_eq] at h
    split_ifs with h1 h2 h3 h4 h5 h6
    any_goals rfl
    rcases h with ((((h | h) | h) | h) | h) | h
    · exact absurd h h1
    · exact absurd h h2
    · exact absurd h h3
    · exact absurd h h4
    · exact absurd h h5
    · exact absurd h h6

/-- C2: For every pair of solids whose axis-aligned bounding boxes are
disjoint on at least one axis, the union of A and B is the concatenation of
the polygon lists of A and of B, contains exactly |A.polygons| + |B.polygons|
polygons, and no BSP tree is built (the result is the tree-free
`unionFastPath`). -/
theorem C2_union_fast_path (fuel : Nat) (a b : CSG)
    (h : disjointOnSomeAxis a b = true) :
    mayOverlap a b = false ∧
    unionSub fuel a b = unionFastPath a b ∧
    (unionSub fuel a b).polygons = a.polygons ++ b.polygons ∧
    (unionSub fuel a b).polygons.length = a.polygons.length + b.polygons.length := by
  have hm := mayOverlap_false_of_disjoint a b h
  refine ⟨hm, ?_, ?_, ?_⟩ <;> simp [unionSub, hm, unionFastPath]

/-- C2 witness: two unit squares 10 apart along x take the fast path. -/
theorem C2_union_fast_path_witness :
    disjointOnSomeAxis (fromPolygons [sqPoly]) (fromPolygons [sqPolyFar]) = true ∧
    unionSub 5 (fromPolygons [sqPoly]) (fromPolygons [sqPolyFar]) =
      unionFastPath (fromPolygons [sqPoly]) (fromPolygons [sqPolyFar]) ∧
    (unionSub 5 (fromPolygons [sqPoly]) (fromPolygons [sqPolyFar])).polygons.length = 2 := by
  have hd : disjointOnSomeAxis (fromPolygons [sqPoly]) (fromPolygons [sqPolyFar]) = true := by
    norm_num [disjointOnSomeAxis, csgBounds, fromPolygons, sqPoly, sqPolyFar,
      Polygon.boundingBox, Vec3.vmin, Vec3.vmax]
  exact ⟨hd, (C2_union_fast_path 5 _ _ hd).2.1,
    (C2_union_fast_path 5 (fromPolygons [sqPoly]) (fromPolygons [sqPolyFar]) hd).2.2.2⟩

/-- C10: For every pair of solids, if either polygon list is empty then
`mayOverlap` returns false, so a union with an empty operand takes the fast
path and returns the concatenation of the two polygon lists (the polygons of
the non-empty operand) without building any BSP tree. -/
theorem C10_empty_operand_union (fuel : Nat) (a b : CSG)
    (h : a.polygons = [] ∨ b.polygons = []) :
    mayOverlap a b = false ∧
    unionSub fuel a b = unionFastPath a b ∧
    (unionSub fuel a b).polygons = a.polygons ++ b.polygons := by
  have hm : mayOverlap a b = false := by
    unfold mayOverlap
    rcases h with h | h <;> simp [h]
  exact ⟨hm, by simp [unionSub, hm], by simp [unionSub, hm, unionFastPath]⟩

/-- C10 witness: the empty solid united with the square. -/
theorem C10_empty_operand_union_witness :
    mayOverlap (fromPolygons []) (fromPolygons [sqPoly]) = false ∧
    (unionSub 5 (fromPolygons []) (fromPolygons [sqPoly])).polygons = [sqPoly] := by
  refine ⟨(C10_empty_operand_union 5 _ _ (Or.inl rfl)).1, ?_⟩
  have h := (C10_empty_operand_union 5 (fromPolygons []) (fromPolygons [sqPoly])
    (Or.inl rfl)).2.2
  simpa [fromPolygons] using h

/-- C8: For every plane and every pair of points, `splitLineBetweenPoints`
returns `p1 + λ·(p2 − p1)` with the line parameter λ clamped to [0, 1]; when
the parameter of the source is NaN (numerator and denominator both zero, e.g.
a segment parallel to and on the plane) λ = 0 is chosen and the result is the
endpoint p1.  The function is total: it is defined for all inputs. -/
theorem C8_split_line_clamped (pl : Plane) (p1 p2 : Vec3) :
    0 ≤ Plane.splitLineLambda pl p1 p2 ∧
    Plane.splitLineLambda pl p1 p2 ≤ 1 ∧
    Plane.splitLineBetweenPoints pl p1 p2 =
      p1.plus ((p2.minus p1).times (Plane.splitLineLambda pl p1 p2)) ∧
    (pl.normal.dot (p2.minus p1) = 0 → pl.w - pl.normal.dot p1 = 0 →
      Plane.splitLineBetweenPoints pl p1 p2 = p1) := by
  refine ⟨?_, ?_, rfl, ?_⟩
  · simp only [Plane.splitLineLambda]
    split_ifs <;> simp [le_max_left]
  · simp only [Plane.splitLineLambda]
    split_ifs <;> simp [max_le_iff, min_le_left]
  · intro hden hnum
    simp only [Plane.splitLineBetweenPoints, Plane.splitLineLambda, hden, hnum, if_pos rfl]
    exact plus_times_zero p1 (p2.minus p1)

/-- C8 witness: a segment lying inside the plane z = 0 yields its first
endpoint (the NaN case), and the parameter of a generic crossing is in
bounds. -/
theorem C8_split_line_clamped_witness :
    Plane.splitLineBetweenPoints ⟨⟨0, 0, 1⟩, 0⟩ ⟨1, 2, 0⟩ ⟨3, 4, 0⟩ = ⟨1, 2, 0⟩ ∧
    0 ≤ Plane.splitLineLambda planeX ⟨-1, 0, 0⟩ ⟨3, 0, 0⟩ ∧
    Plane.splitLineLambda planeX ⟨-1, 0, 0⟩ ⟨3, 0, 0⟩ ≤ 1 := by
  refine ⟨?_, (C8_split_line_clamped planeX _ _).1, (C8_split_line_clamped planeX _ _).2.1⟩
  exact (C8_split_line_clamped ⟨⟨0, 0, 1⟩, 0⟩ ⟨1, 2, 0⟩ ⟨3, 4, 0⟩).2.2.2
    (by norm_num [Vec3.dot, Vec3.minus]) (by norm_num [Vec3.dot])

/-- C9: `Line3D.fromPlanes(p1, p2)` fails exactly when the cross product of
the two plane normals is shorter than EPS (embedded square-free as
`lengthSquared < EPS²`, equivalent for the nonnegative length); otherwise it
returns a line whose direction is the cross product of the normals (the source
then scales it by the positive factor 1/length to unit size, which exact
arithmetic keeps implicit — see `Line3D`). -/
theorem C9_fromPlanes_parallel (p1 p2 : Plane) :
    (Line3D.fromPlanes p1 p2 = none ↔
      (p1.normal.cross p2.normal).lengthSquared < EPS ^ 2) ∧
    (∀ l, Line3D.fromPlanes p1 p2 = some l →
      l.direction = p1.normal.cross p2.normal) := by
  by_cases h : (p1.normal.cross p2.normal).lengthSquared < EPS ^ 2
  · refine ⟨by simp [Line3D.fromPlanes, h], ?_⟩
    intro l hl
    simp [Line3D.fromPlanes, h] at hl
  · refine ⟨by simp [Line3D.fromPlanes, h], ?_⟩
    intro l hl
    simp only [Line3D.fromPlanes, if_neg h, Option.some.injEq] at hl
    rw [← hl]

/-- C9 witness: two parallel z = c planes fail; the x = 0 and y = 0 planes
meet in a line with direction (0, 0, 1). -/
theorem C9_fromPlanes_parallel_witness :
    Line3D.fromPlanes ⟨⟨0, 0, 1⟩, 0⟩ ⟨⟨0, 0, 1⟩, 5⟩ = none ∧
    ∀ l, Line3D.fromPlanes ⟨⟨1, 0, 0⟩, 0⟩ ⟨⟨0, 1, 0⟩, 0⟩ = some l →
      l.direction = ⟨0, 0, 1⟩ := by
  constructor
  · exact (C9_fromPlanes_parallel ⟨⟨0, 0, 1⟩, 0⟩ ⟨⟨0, 0, 1⟩, 5⟩).1.mpr
      (by norm_num [Vec3.cross, Vec3.lengthSquared, Vec3.dot, EPS])
  · intro l hl
    have h := (C9_fromPlanes_parallel ⟨⟨1, 0, 0⟩, 0⟩ ⟨⟨0, 1, 0⟩, 0⟩).2 l hl
    rw [h]
    norm_num [Vec3.cross]

/-- The dot product of a vector with itself is a sum of squares. -/
theorem dot_self_nonneg (v : Vec3) : 0 ≤ v.dot v := by
  have hx := mul_self_nonneg v.x
  have hy := mul_self_nonneg v.y
  have hz := mul_self_nonneg v.z
  simp only [Vec3.dot]
  linarith

/-- C3: For every plane P and convex polygon Q (whose vertices lie within EPS
of its own cached plane, as the data model requires), `splitPolygonByPlane`
classifies Q by the signed distances t_i = P.n · v_i − P.w: if every
|t_i| ≤ EPS the result is COPLANAR_FRONT when P.n · Q.plane.n ≥ 0 and
COPLANAR_BACK otherwise; if some t_i > EPS and no t_i < −EPS the result is
FRONT; if some t_i < −EPS and no t_i > EPS the result is BACK; and if both
occur the result is SPANNING.  (The equal-planes fast path of the source
returns COPLANAR_FRONT directly; under the coplanarity hypothesis that agrees
with the rule, since P.n · Q.plane.n = |P.n|² ≥ 0.) -/
theorem C3_split_classification (plane : Plane) (poly : Polygon)
    (hwf : ∀ v ∈ poly.vertices, |poly.plane.normal.dot v.pos - poly.plane.w| ≤ EPS) :
    ((∀ v ∈ poly.vertices, |plane.normal.dot v.pos - plane.w| ≤ EPS) →
      (splitPolygonByPlane plane poly).type =
        (if 0 ≤ plane.normal.dot poly.plane.normal then SplitType.coplanarFront
         else SplitType.coplanarBack)) ∧
    (((∃ v ∈ poly.vertices, EPS < plane.normal.dot v.pos - plane.w) ∧
      ∀ v ∈ poly.vertices, -EPS ≤ plane.normal.dot v.pos - plane.w) →
      (splitPolygonByPlane plane poly).type = SplitType.front) ∧
    (((∃ v ∈ poly.vertices, plane.normal.dot v.pos - plane.w < -EPS) ∧
      ∀ v ∈ poly.vertices, plane.normal.dot v.pos - plane.w ≤ EPS) →
      (splitPolygonByPlane plane poly).type = SplitType.back) ∧
    (((∃ v ∈ poly.vertices, EPS < plane.normal.dot v.pos - plane.w) ∧
      (∃ v ∈ poly.vertices, plane.normal.dot v.pos - plane.w < -EPS)) →
      (splitPolygonByPlane plane poly).type = SplitType.spanning) := by
  by_cases hpl : poly.plane = plane
  · have hz : 0 ≤ plane.normal.dot poly.plane.normal := by
      rw [hpl]
      exact dot_self_nonneg plane.normal
    refine ⟨fun _ => ?_, fun h => ?_, fun h => ?_, fun h => ?_⟩
    · simp [splitPolygonByPlane, if_pos hpl, if_pos hz]
    · obtain ⟨⟨v, hv, hvt⟩, -⟩ := h
      have hb0 := hwf v hv
      rw [hpl] at hb0
      have hb := abs_le.mp hb0
      linarith
    · obtain ⟨⟨v, hv, hvt⟩, -⟩ := h
      have hb0 := hwf v hv
      rw [hpl] at hb0
      have hb := abs_le.mp hb0
      linarith
    · obtain ⟨⟨v, hv, hvt⟩, -⟩ := h
      have hb0 := hwf v hv
      rw [hpl] at hb0
      have hb := abs_le.mp hb0
      linarith
  · have hfrontIff :
        (((poly.vertices.map fun v => plane.normal.dot v.pos - plane.w).any
          fun t => decide (EPS < t)) = true) ↔
          ∃ v ∈ poly.vertices, EPS < plane.normal.dot v.pos - plane.w := by
      simp [List.any_eq_true]
    have hbackIff :
        (((poly.vertices.map fun v => plane.normal.dot v.pos - plane.w).any
          fun t => decide (t < -EPS)) = true) ↔
          ∃ v ∈ poly.vertices, plane.normal.dot v.pos - plane.w < -EPS := by
      simp [List.any_eq_true]
    refine ⟨fun hall => ?_, fun h => ?_, fun h => ?_, fun h => ?_⟩
    · have hf : ((poly.vertices.map fun v => plane.normal.dot v.pos - plane.w).any
          fun t => decide (EPS < t)) = false := by
        cases hEq : ((poly.vertices.map fun v => plane.normal.dot v.pos - plane.w).any
          fun t => decide (EPS < t))
        · rfl
        · obtain ⟨v, hv, hlt⟩ := hfrontIff.mp hEq
          have := abs_le.mp (hall v hv)
          linarith
      have hb : ((poly.vertices.map fun v => plane.normal.dot v.pos - plane.w).any
          fun t => decide (t < -EPS)) = false := by
        cases hEq : ((poly.vertices.map fun v => plane.normal.dot v.pos - plane.w).any
          fun t => decide (t < -EPS))
        · rfl
        · obtain ⟨v, hv, hlt⟩ := hbackIff.mp hEq
          have := abs_le.mp (hall v hv)
          linarith
      simp only [splitPolygonByPlane, if_neg hpl, hf, hb, Bool.not_false, Bool.and_self,
        if_pos]
      split_ifs <;> rfl
    · obtain ⟨hex, hge⟩ := h
      have hf := hfrontIff.mpr hex
      have hb : ((poly.vertices.map fun v => plane.normal.dot v.pos - plane.w).any
          fun t => decide (t < -EPS)) = false := by
        cases hEq : ((poly.vertices.map fun v => plane.normal.dot v.pos - plane.w).any
          fun t => decide (t < -EPS))
        · rfl
        · obtain ⟨v, hv, hlt⟩ := hbackIff.mp hEq
          have := hge v hv
          linarith
      simp [splitPolygonByPlane, if_neg hpl, hf, hb]
    · obtain ⟨hex, hle⟩ := h
      have hb := hbackIff.mpr hex
      have hf : ((poly.vertices.map fun v => plane.normal.dot v.pos - plane.w).any
          fun t => decide (EPS < t)) = false := by
        cases hEq : ((poly.vertices.map fun v => plane.normal.dot v.pos - plane.w).any
          fun t => decide (EPS < t))
        · rfl
        · obtain ⟨v, hv, hlt⟩ := hfrontIff.mp hEq
          have := hle v hv
          linarith
      simp [splitPolygonByPlane, if_neg hpl, hf, hb]
    · obtain ⟨hexf, hexb⟩ := h
      have hf := hfrontIff.mpr hexf
      have hb := hbackIff.mpr hexb
      simp [splitPolygonByPlane, if_neg hpl, hf, hb]

/-- C3 witness: the unit square against the plane x = 0 satisfies the
coplanarity hypothesis and lands in the SPANNING case of the rule. -/
theorem C3_split_classification_witness :
    (splitPolygonByPlane planeX sqPoly).type = SplitType.spanning := by
  refine (C3_split_classification planeX sqPoly ?_).2.2.2 ⟨?_, ?_⟩
  · intro v hv
    simp only [sqPoly, List.mem_cons, List.not_mem_nil, or_false] at hv
    rcases hv with h | h | h | h <;> rw [h] <;> norm_num [sqPoly, Vec3.dot, EPS]
  · refine ⟨⟨⟨1, -1, 0⟩⟩, by simp [sqPoly], ?_⟩
    norm_num [planeX, Vec3.dot, EPS]
  · refine ⟨⟨⟨-1, 1, 0⟩⟩, by simp [sqPoly], ?_⟩
    norm_num [planeX, Vec3.dot, EPS]

/-- Rounding a value within half a unit of u lands on ⌊u⌋ or ⌊u⌋ + 1. -/
theorem jsRound_mem_pair (u v : ℚ) (h : |u - v| ≤ 1 / 2) :
    jsRound v = ⌊u⌋ ∨ jsRound v = ⌊u⌋ + 1 := by
  obtain ⟨h1, h2⟩ := abs_le.mp h
  have hfl := Int.floor_le u
  have hfu := Int.lt_floor_add_one u
  have hlo : ⌊u⌋ ≤ jsRound v := by
    apply Int.le_floor.mpr
    linarith
  have hhi : jsRound v < ⌊u⌋ + 2 := by
    apply Int.floor_lt.mpr
    push_cast
    linarith
  omega

/-- Rounding a value more than two units away from u misses both ⌊u⌋ and
⌊u⌋ + 1. -/
theorem jsRound_far (u v : ℚ) (h : 2 < |u - v|) :
    jsRound v ≠ ⌊u⌋ ∧ jsRound v ≠ ⌊u⌋ + 1 := by
  have hfl := Int.floor_le u
  have hfu := Int.lt_floor_add_one u
  rcases lt_abs.mp h with h1 | h1
  · have : jsRound v < ⌊u⌋ := by
      apply Int.floor_lt.mpr
      linarith
    omega
  · have : ⌊u⌋ + 2 ≤ jsRound v := by
      apply Int.le_floor.mpr
      push_cast
      linarith
    omega

/-- Componentwise half-quantum closeness puts the rounded key of b among the
corner keys stored for a. -/
theorem keyOf_mem_cornerKeys (m : ℚ) :
    ∀ a b : List ℚ, List.Forall₂ (fun x y => |x * m - y * m| ≤ 1 / 2) a b →
      keyOf m b ∈ cornerKeys m a := by
  intro a b h
  induction h with
  | nil => simp [keyOf, cornerKeys]
  | @cons x y xs ys hxy htail ih =>
    rcases jsRound_mem_pair (x * m) (y * m) hxy with hr | hr
    · simp only [keyOf, List.map_cons, cornerKeys, List.mem_append, List.mem_map]
      exact Or.inl ⟨keyOf m ys, ih, by rw [hr]; rfl⟩
    · simp only [keyOf, List.map_cons, cornerKeys, List.mem_append, List.mem_map]
      exact Or.inr ⟨keyOf m ys, ih, by rw [hr]; rfl⟩

/-- Looking a key up in a table of corner entries that contains it yields the
stored object. -/
theorem ffLookup_corners_mem (id : Nat) :
    ∀ (ks : List (List ℤ)) (key : List ℤ), key ∈ ks →
      ffLookup (ks.map (fun k => (k, id))) key = some id := by
  intro ks
  induction ks with
  | nil =>
    intro key h
    cases h
  | cons k rest ih =>
    intro key h
    simp only [List.map_cons, ffLookup]
    by_cases he : k = key
    · simp [he]
    · have hm : key ∈ rest := by
        rcases List.mem_cons.mp h with h1 | h1
        · exact absurd h1.symm he
        · exact h1
      simp only [if_neg he]
      exact ih key hm

/-- Looking up a key absent from a table of corner entries fails. -/
theorem ffLookup_corners_notmem (id : Nat) :
    ∀ (ks : List (List ℤ)) (key : List ℤ), key ∉ ks →
      ffLookup (ks.map (fun k => (k, id))) key = none := by
  intro ks
  induction ks with
  | nil =>
    intro key _
    rfl
  | cons k rest ih =>
    intro key h
    simp only [List.map_cons, ffLookup]
    have hne : k ≠ key := fun he => h (he ▸ List.mem_cons_self k rest)
    simp only [if_neg hne]
    exact ih key fun hm => h (List.mem_cons_of_mem k hm)

/-- Every corner key of a nonempty tuple starts with the floor of the head
quantization or its successor. -/
theorem cornerKeys_head (m x : ℚ) (xs : List ℚ) (k : List ℤ)
    (hk : k ∈ cornerKeys m (x :: xs)) :
    ∃ kt, kt ∈ cornerKeys m xs ∧ (k = ⌊x * m⌋ :: kt ∨ k = (⌊x * m⌋ + 1) :: kt) := by
  simp only [cornerKeys, List.mem_append, List.mem_map] at hk
  rcases hk with ⟨kt, hkt, hke⟩ | ⟨kt, hkt, hke⟩
  · exact ⟨kt, hkt, Or.inl hke.symm⟩
  · exact ⟨kt, hkt, Or.inr hke.symm⟩

/-- The first `lookupOrCreate` on a fresh factory creates object 0 and stores
it under all corner keys. -/
theorem lookupOrCreate_empty (tol : ℚ) (els : List ℚ) :
    lookupOrCreate (FuzzyFactory.empty tol) els =
      (0, ⟨(cornerKeys (1 / tol) els).map (fun k => (k, 0)), 1, 1 / tol⟩) := by
  simp [lookupOrCreate, FuzzyFactory.empty, ffLookup]

/-- A `lookupOrCreate` whose rounded key is present returns the stored object
and leaves the factory unchanged. -/
theorem lookupOrCreate_hit (f : FuzzyFactory) (els : List ℚ) (v : Nat)
    (h : ffLookup f.table (keyOf f.multiplier els) = some v) :
    lookupOrCreate f els = (v, f) := by
  simp [lookupOrCreate, h]

/-- A `lookupOrCreate` whose rounded key is absent creates the next object. -/
theorem lookupOrCreate_miss (f : FuzzyFactory) (els : List ℚ)
    (h : ffLookup f.table (keyOf f.multiplier els) = none) :
    lookupOrCreate f els =
      (f.nextId, ⟨(cornerKeys f.multiplier els).map (fun k => (k, f.nextId)) ++ f.table,
        f.nextId + 1, f.multiplier⟩) := by
  simp [lookupOrCreate, h]

/-- C4 (amended): For every tolerance t > 0 and every two equally long input
tuples, if the componentwise absolute difference is at most t/2 then calling
`lookupOrCreate` on the first and then on the second (on a fresh factory)
returns the same object for both; and for nonempty tuples differing
componentwise by more than 2·t the two calls return different objects.  (The
claim as stated, with closeness bound t instead of t/2, is refuted by
`C4_lookup_same_object_refuted`.) -/
theorem C4_fuzzy_lookup_amended (tol : ℚ) (htol : 0 < tol) (a b : List ℚ) :
    (List.Forall₂ (fun x y => |x - y| ≤ tol / 2) a b →
      (lookupOrCreate (lookupOrCreate (FuzzyFactory.empty tol) a).2 b).1 =
        (lookupOrCreate (FuzzyFactory.empty tol) a).1) ∧
    (a ≠ [] → List.Forall₂ (fun x y => 2 * tol < |x - y|) a b →
      (lookupOrCreate (lookupOrCreate (FuzzyFactory.empty tol) a).2 b).1 ≠
        (lookupOrCreate (FuzzyFactory.empty tol) a).1) := by
  have hm : (0 : ℚ) < 1 / tol := by positivity
  constructor
  · intro hcl
    have hmem : keyOf (1 / tol) b ∈ cornerKeys (1 / tol) a := by
      apply keyOf_mem_cornerKeys
      refine hcl.imp ?_
      intro x y hxy
      have habs : |x * (1 / tol) - y * (1 / tol)| = |x - y| * (1 / tol) := by
        rw [← sub_mul, abs_mul, abs_of_pos hm]
      have hb : |x - y| * (1 / tol) ≤ (tol / 2) * (1 / tol) :=
        mul_le_mul_of_nonneg_right hxy (le_of_lt hm)
      have he : (tol / 2) * (1 / tol) = 1 / 2 := by
        field_simp
        ring
      rw [habs]
      rw [he] at hb
      exact hb
    have hfound := ffLookup_corners_mem 0 (cornerKeys (1 / tol) a) (keyOf (1 / tol) b) hmem
    rw [lookupOrCreate_empty]
    rw [lookupOrCreate_hit _ b 0 hfound]
  · intro hne hfar
    rcases a with _ | ⟨x, xs⟩
    · exact absurd rfl hne
    cases hfar with
    | cons hxy htail =>
      rename_i y ys
      have hx : 2 < |x * (1 / tol) - y * (1 / tol)| := by
        have habs : |x * (1 / tol) - y * (1 / tol)| = |x - y| * (1 / tol) := by
          rw [← sub_mul, abs_mul, abs_of_pos hm]
        have hb : (2 * tol) * (1 / tol) < |x - y| * (1 / tol) :=
          mul_lt_mul_of_pos_right hxy hm
        have he : (2 * tol) * (1 / tol) = 2 := by
          field_simp
        rw [habs]
        rw [he] at hb
        exact hb
      have hpair := jsRound_far (x * (1 / tol)) (y * (1 / tol)) hx
      have hnot : keyOf (1 / tol) (y :: ys) ∉ cornerKeys (1 / tol) (x :: xs) := by
        intro hmem
        obtain ⟨kt, -, hk | hk⟩ := cornerKeys_head (1 / tol) x xs _ hmem
        · simp only [keyOf, List.map_cons, List.cons.injEq] at hk
          exact hpair.1 hk.1
        · simp only [keyOf, List.map_cons, List.cons.injEq] at hk
          exact hpair.2 hk.1
      have hlf := ffLookup_corners_notmem 0 (cornerKeys (1 / tol) (x :: xs))
        (keyOf (1 / tol) (y :: ys)) hnot
      rw [lookupOrCreate_empty]
      rw [lookupOrCreate_miss _ (y :: ys) hlf]
      simp

/-- C4 counterexample: with tolerance 1, the inputs (0) and (−4/5) differ by
4/5 ≤ tolerance, yet the second lookup rounds to −1, misses the stored corner
keys {0, 1} of the first insertion, and creates a different object. -/
theorem C4_lookup_same_object_refuted :
    |(0 : ℚ) - (-4 / 5)| ≤ 1 ∧
    (lookupOrCreate (lookupOrCreate (FuzzyFactory.empty 1) [0]).2 [-4 / 5]).1 ≠
      (lookupOrCreate (FuzzyFactory.empty 1) [0]).1 := by
  constructor
  · rw [abs_le]
    norm_num
  · rw [lookupOrCreate_empty]
    have h1 : jsRound (-4 / 5 : ℚ) = -1 := by
      simp only [jsRound]
      rw [show ((-4 / 5 : ℚ)) + 1 / 2 = -3 / 10 by norm_num]
      rw [Int.floor_eq_iff]
      norm_num
    have hlf : ffLookup ((cornerKeys (1 / 1) [0]).map (fun k => (k, 0)))
        (keyOf (1 / 1) [-4 / 5]) = none := by
      simp [cornerKeys, keyOf, ffLookup, h1]
    rw [lookupOrCreate_miss _ _ hlf]
    simp

/-- C4 witness for the amended claim: tolerance 1; (0) and (1/3) agree, (0)
and (3) differ. -/
theorem C4_fuzzy_lookup_amended_witness :
    (lookupOrCreate (lookupOrCreate (FuzzyFactory.empty 1) [0]).2 [1 / 3]).1 =
      (lookupOrCreate (FuzzyFactory.empty 1) [0]).1 ∧
    (lookupOrCreate (lookupOrCreate (FuzzyFactory.empty 1) [0]).2 [3]).1 ≠
      (lookupOrCreate (FuzzyFactory.empty 1) [0]).1 := by
  constructor
  · refine (C4_fuzzy_lookup_amended 1 one_pos [0] [1 / 3]).1 ?_
    refine List.Forall₂.cons ?_ List.Forall₂.nil
    rw [abs_le]
    norm_num
  · refine (C4_fuzzy_lookup_amended 1 one_pos [0] [3]).2 (by simp) ?_
    refine List.Forall₂.cons ?_ List.Forall₂.nil
    rw [lt_abs]
    norm_num

/-- Reading a just-written polygon-tree slot. -/
theorem getPT_set_self (s : PTStore) (i : Nat) (n : PTNode) (h : i < s.length) :
    getPT (setPT s i n) i = n := by
  simp [getPT, setPT, List.getD_eq_getElem?_getD, List.getElem?_set_eq_of_lt _ h]

/-- Writing one polygon-tree slot leaves the others unchanged. -/
theorem getPT_set_ne (s : PTStore) (i j : Nat) (n : PTNode) (h : i ≠ j) :
    getPT (setPT s i n) j = getPT s j := by
  simp [getPT, setPT, List.getD_eq_getElem?_getD, List.getElem?_set_ne h]

/-- Appending nodes does not change reads below the old length. -/
theorem getPT_append_lt (s t : PTStore) (i : Nat) (h : i < s.length) :
    getPT (s ++ t) i = getPT s i := by
  simp [getPT, List.getD_eq_getElem?_getD, List.getElem?_append_left h]

/-- Reading the slot just appended. -/
theorem getPT_append_len (s : PTStore) (n : PTNode) :
    getPT (s ++ [n]) s.length = n := by
  simp [getPT, List.getD_eq_getElem?_getD, List.getElem?_concat_length]

/-- What `addChild` does to the parent slot: the new child index is appended
to its children and nothing else changes. -/
theorem addChild_parent (s : PTStore) (pid : Nat) (p : Polygon) (h : pid < s.length) :
    (addChild s pid p).2 = s.length ∧
    (addChild s pid p).1.length = s.length + 1 ∧
    getPT (addChild s pid p).1 pid =
      { getPT s pid with children := (getPT s pid).children ++ [s.length] } := by
  refine ⟨rfl, by simp [addChild, setPT], ?_⟩
  have hlt : pid < (s ++ [(⟨some pid, [], some p, false⟩ : PTNode)]).length := by
    simp
    omega
  simp only [addChild]
  rw [getPT_set_self _ _ _ hlt, getPT_append_lt _ _ _ h]

/-- C5 counterexample: splitting the square leaf with the plane x = 0 (a
SPANNING split) leaves the node with two children AND its polygon still set;
the claimed invariant (non-empty children forces a null polygon) fails. -/
theorem C5_children_null_polygon_refuted :
    (getPT (splitLeaf (addChild [PTNode.rootNode] 0 sqPoly).1 1 planeX).1 1).children ≠ [] ∧
    (getPT (splitLeaf (addChild [PTNode.rootNode] 0 sqPoly).1 1 planeX).1 1).polygon ≠
      none := by
  norm_num [splitLeaf, addChild, getPT, setPT, PTNode.rootNode, sqPoly, planeX,
    splitPolygonByPlane, spanWalk, spanStep, dedupVerts, Plane.splitLineBetweenPoints,
    Plane.splitLineLambda, Polygon.boundingSphereSq, Polygon.boundingBox, sphereFrontOut,
    sphereBackOut, Vec3.dot, Vec3.plus, Vec3.minus, Vec3.times, Vec3.vmin, Vec3.vmax,
    Vec3.lengthSquared, Vec3.distanceToSquared, EPS, List.rotate, List.filterMap_cons]
  exact ⟨by simp, by simp⟩

/-- C5 (amended): a SPANNING split of a leaf in which both fragments survive
appends two children to the node and leaves its polygon untouched (non-null);
a node with non-empty children holds a null polygon only after
`recursivelyInvalidatePolygon` runs for a removed descendant, not after a
split. -/
theorem C5_amended_spanning_keeps_polygon (s : PTStore) (id : Nat) (pl : Plane)
    (p f b : Polygon)
    (hid : id < s.length)
    (hleaf : (getPT s id).children = [])
    (hpoly : (getPT s id).polygon = some p)
    (hsf : sphereFrontOut (pl.normal.dot p.boundingSphereSq.1 - pl.w)
      p.boundingSphereSq.2 = false)
    (hsb : sphereBackOut (pl.normal.dot p.boundingSphereSq.1 - pl.w)
      p.boundingSphereSq.2 = false)
    (hsp : (splitPolygonByPlane pl p).type = SplitType.spanning)
    (hfr : (splitPolygonByPlane pl p).front = some f)
    (hbk : (splitPolygonByPlane pl p).back = some b) :
    (getPT (splitLeaf s id pl).1 id).children = [s.length, s.length + 1] ∧
    (getPT (splitLeaf s id pl).1 id).polygon = some p := by
  rcases hsr : splitPolygonByPlane pl p with ⟨ty, fro, bck⟩
  rw [hsr] at hsp hfr hbk
  simp only at hsp hfr hbk
  subst hsp hfr hbk
  have h1 := addChild_parent s id f hid
  have hlen1 : (addChild s id f).1.length = s.length + 1 := h1.2.1
  have hid1 : id < (addChild s id f).1.length := by omega
  have h2 := addChild_parent (addChild s id f).1 id b hid1
  have hnode : getPT (splitLeaf s id pl).1 id =
      getPT (addChild (addChild s id f).1 id b).1 id := by
    simp only [splitLeaf, hpoly, hsf, hsb, hsr, Bool.false_eq_true, if_false]
  rw [hnode, h2.2.2, h1.2.2, hleaf, hlen1]
  simp [hpoly]

/-- C5 witness: the square leaf split by x = 0 instantiates the amended
theorem; both fragments survive and the polygon is retained. -/
theorem C5_amended_spanning_keeps_polygon_witness :
    (getPT (splitLeaf (addChild [PTNode.rootNode] 0 sqPoly).1 1 planeX).1 1).children =
      [2, 3] ∧
    (getPT (splitLeaf (addChild [PTNode.rootNode] 0 sqPoly).1 1 planeX).1 1).polygon =
      some sqPoly := by
  have h := C5_amended_spanning_keeps_polygon (addChild [PTNode.rootNode] 0 sqPoly).1 1
    planeX sqPoly
    ⟨[⟨⟨1, -1, 0⟩⟩, ⟨⟨1, 1, 0⟩⟩, ⟨⟨0, 1, 0⟩⟩, ⟨⟨0, -1, 0⟩⟩], 0, ⟨⟨0, 0, 1⟩, 0⟩⟩
    ⟨[⟨⟨0, 1, 0⟩⟩, ⟨⟨-1, 1, 0⟩⟩, ⟨⟨-1, -1, 0⟩⟩, ⟨⟨0, -1, 0⟩⟩], 0, ⟨⟨0, 0, 1⟩, 0⟩⟩
    (by norm_num [addChild, setPT]) rfl rfl
    (by norm_num [sqPoly, planeX, sphereFrontOut, Polygon.boundingSphereSq,
      Polygon.boundingBox, Vec3.dot, Vec3.plus, Vec3.minus, Vec3.times, Vec3.vmin,
      Vec3.vmax, Vec3.lengthSquared, EPS])
    (by norm_num [sqPoly, planeX, sphereBackOut, Polygon.boundingSphereSq,
      Polygon.boundingBox, Vec3.dot, Vec3.plus, Vec3.minus, Vec3.times, Vec3.vmin,
      Vec3.vmax, Vec3.lengthSquared, EPS])
    (by norm_num [splitPolygonByPlane, sqPoly, planeX, spanWalk, spanStep, dedupVerts,
      Plane.splitLineBetweenPoints, Plane.splitLineLambda, Vec3.dot, Vec3.plus,
      Vec3.minus, Vec3.times, Vec3.lengthSquared, Vec3.distanceToSquared, EPS,
      List.rotate, List.filterMap_cons])
    (by norm_num [splitPolygonByPlane, sqPoly, planeX, spanWalk, spanStep, dedupVerts,
      Plane.splitLineBetweenPoints, Plane.splitLineLambda, Vec3.dot, Vec3.plus,
      Vec3.minus, Vec3.times, Vec3.lengthSquared, Vec3.distanceToSquared, EPS,
      List.rotate, List.filterMap_cons])
    (by norm_num [splitPolygonByPlane, sqPoly, planeX, spanWalk, spanStep, dedupVerts,
      Plane.splitLineBetweenPoints, Plane.splitLineLambda, Vec3.dot, Vec3.plus,
      Vec3.minus, Vec3.times, Vec3.lengthSquared, Vec3.distanceToSquared, EPS,
      List.rotate, List.filterMap_cons])
  have hlen : (addChild [PTNode.rootNode] 0 sqPoly).1.length = 2 := by
    norm_num [addChild, setPT]
  rw [hlen] at h
  exact h

/-- Reading a just-written BSP slot. -/
theorem getBsp_set_self (s : BspStore) (i : Nat) (n : BspNode) (h : i < s.length) :
    getBsp (setBsp s i n) i = n := by
  simp [getBsp, setBsp, List.getD_eq_getElem?_getD, List.getElem?_set_eq_of_lt _ h]

/-- Writing one BSP slot leaves the others unchanged. -/
theorem getBsp_set_ne (s : BspStore) (i j : Nat) (n : BspNode) (h : i ≠ j) :
    getBsp (setBsp s i n) j = getBsp s j := by
  simp [getBsp, setBsp, List.getD_eq_getElem?_getD, List.getElem?_set_ne h]

/-- Appending BSP nodes does not change reads below the old length. -/
theorem getBsp_append_lt (s t : BspStore) (i : Nat) (h : i < s.length) :
    getBsp (s ++ t) i = getBsp s i := by
  simp [getBsp, List.getD_eq_getElem?_getD, List.getElem?_append_left h]

/-- C6 counterexample: inserting the square and its flipped copy into a fresh
tree.  The flipped square is COPLANAR-BACK to the chosen plane; the source
routes it into a NEW BACK CHILD (node 1), not into the polygon list of the
splitting node, so that list keeps exactly one entry — the claim predicts
two. -/
theorem C6_coplanar_back_routing_refuted :
    (getBsp (Tree.new 20 [sqPoly, sqPoly.flipped]).bsp 0).polygontreenodes = [1] ∧
    (getBsp (Tree.new 20 [sqPoly, sqPoly.flipped]).bsp 0).back = some 1 ∧
    (getBsp (Tree.new 20 [sqPoly, sqPoly.flipped]).bsp 1).polygontreenodes = [2] ∧
    ¬(getBsp (Tree.new 20 [sqPoly, sqPoly.flipped]).bsp 0).polygontreenodes.length = 2 := by
  norm_num [Tree.new, Tree.addPolygons, addPolygonTreeNodes, addPTNprocess, addPTNrun,
    addPTNsplitAll,
    ensureFront, ensureBack, ptnSplitByPlane, splitLeaf, splitQueue, splitGroup,
    splitPolygonByPlane, routeEvents, routeStep,
    addPTNroute, addChild, getPT, setPT, getBsp, setBsp, Polygon.boundingSphereSq,
    Polygon.boundingBox, sphereFrontOut, sphereBackOut, planeX, sqPoly, Polygon.flipped,
    Plane.flipped, Vertex.flipped, Vec3.negated, Vec3.dot, EPS, Vec3.vmin, Vec3.vmax,
    Vec3.plus, Vec3.minus, Vec3.times, Vec3.lengthSquared, PTNode.rootNode, BspNode.mk0,
    degeneratePolygon]

/-- Everything `ensureFront` guarantees about the node and the pushed task. -/
theorem ensureFront_spec (bsp : BspStore) (nid : Nat) (frN : List Nat)
    (hn : nid < bsp.length) :
    (getBsp (ensureFront bsp nid frN).1 nid).plane = (getBsp bsp nid).plane ∧
    (getBsp (ensureFront bsp nid frN).1 nid).polygontreenodes =
      (getBsp bsp nid).polygontreenodes ∧
    (getBsp (ensureFront bsp nid frN).1 nid).back = (getBsp bsp nid).back ∧
    nid < (ensureFront bsp nid frN).1.length ∧
    (frN ≠ [] →
      (getBsp (ensureFront bsp nid frN).1 nid).front.isSome = true ∧
      (ensureFront bsp nid frN).2 =
        [((getBsp (ensureFront bsp nid frN).1 nid).front.getD 0, frN)]) ∧
    (frN = [] → ensureFront bsp nid frN = (bsp, [])) := by
  rcases frN with _ | ⟨a, l⟩
  · simp only [ensureFront, List.isEmpty_nil, if_pos rfl]
    exact ⟨rfl, rfl, rfl, hn, fun h => absurd rfl h, fun _ => rfl⟩
  · rcases hf : (getBsp bsp nid).front with _ | fid
    · have hlt : nid < (bsp ++ [BspNode.mk0 (some nid)]).length := by
        simp only [List.length_append, List.length_singleton]
        omega
      have he : ensureFront bsp nid (a :: l) =
          (setBsp (bsp ++ [BspNode.mk0 (some nid)]) nid
            { getBsp bsp nid with front := some bsp.length }, [(bsp.length, a :: l)]) := by
        simp only [ensureFront, List.isEmpty_cons, Bool.false_eq_true, if_false, hf]
      rw [he]
      rw [getBsp_set_self _ _ _ hlt]
      refine ⟨rfl, rfl, rfl, ?_, fun _ => ⟨rfl, rfl⟩, fun h => absurd h (by simp)⟩
      simp only [setBsp, List.length_set, List.length_append, List.length_singleton]
      omega
    · have he : ensureFront bsp nid (a :: l) = (bsp, [(fid, a :: l)]) := by
        simp only [ensureFront, List.isEmpty_cons, Bool.false_eq_true, if_false, hf]
      rw [he]
      refine ⟨rfl, rfl, rfl, hn, fun _ => ⟨by rw [hf]; rfl, by rw [hf]; rfl⟩,
        fun h => absurd h (by simp)⟩

/-- Everything `ensureBack` guarantees about the node and the pushed task. -/
theorem ensureBack_spec (bsp : BspStore) (nid : Nat) (bkN : List Nat)
    (hn : nid < bsp.length) :
    (getBsp (ensureBack bsp nid bkN).1 nid).plane = (getBsp bsp nid).plane ∧
    (getBsp (ensureBack bsp nid bkN).1 nid).polygontreenodes =
      (getBsp bsp nid).polygontreenodes ∧
    (getBsp (ensureBack bsp nid bkN).1 nid).front = (getBsp bsp nid).front ∧
    nid < (ensureBack bsp nid bkN).1.length ∧
    (bkN ≠ [] →
      (getBsp (ensureBack bsp nid bkN).1 nid).back.isSome = true ∧
      (ensureBack bsp nid bkN).2 =
        [((getBsp (ensureBack bsp nid bkN).1 nid).back.getD 0, bkN)]) ∧
    (bkN = [] → ensureBack bsp nid bkN = (bsp, [])) := by
  rcases bkN with _ | ⟨a, l⟩
  · simp only [ensureBack, List.isEmpty_nil, if_pos rfl]
    exact ⟨rfl, rfl, rfl, hn, fun h => absurd rfl h, fun _ => rfl⟩
  · rcases hf : (getBsp bsp nid).back with _ | bid
    · have hlt : nid < (bsp ++ [BspNode.mk0 (some nid)]).length := by
        simp only [List.length_append, List.length_singleton]
        omega
      have he : ensureBack bsp nid (a :: l) =
          (setBsp (bsp ++ [BspNode.mk0 (some nid)]) nid
            { getBsp bsp nid with back := some bsp.length }, [(bsp.length, a :: l)]) := by
        simp only [ensureBack, List.isEmpty_cons, Bool.false_eq_true, if_false, hf]
      rw [he]
      rw [getBsp_set_self _ _ _ hlt]
      refine ⟨rfl, rfl, rfl, ?_, fun _ => ⟨rfl, rfl⟩, fun h => absurd h (by simp)⟩
      simp only [setBsp, List.length_set, List.length_append, List.length_singleton]
      omega
    · have he : ensureBack bsp nid (a :: l) = (bsp, [(bid, a :: l)]) := by
        simp only [ensureBack, List.isEmpty_cons, Bool.false_eq_true, if_false, hf]
      rw [he]
      refine ⟨rfl, rfl, rfl, hn, fun _ => ⟨by rw [hf]; rfl, by rw [hf]; rfl⟩,
        fun h => absurd h (by simp)⟩

/-- The polygon-store thread and concatenated split-event list of splitting a
list of input nodes in order by one plane (the loop body of
`addPolygonTreeNodes` seen at the event level, before routing). -/
def eventsOf (pl : Plane) : PTStore → List Nat → PTStore × List (SDest × Nat)
  | s, [] => (s, [])
  | s, pid :: rest =>
    let r := ptnSplitByPlane s pid pl
    let r2 := eventsOf pl r.1 rest
    (r2.1, r.2 ++ r2.2)

/-- The ids of the events whose destination passes the test, in event order. -/
def idsWhere (f : SDest → Bool) (evs : List (SDest × Nat)) : List Nat :=
  (evs.filter fun e => f e.1).map fun e => e.2

theorem idsWhere_append (f : SDest → Bool) (a b : List (SDest × Nat)) :
    idsWhere f (a ++ b) = idsWhere f a ++ idsWhere f b := by
  simp [idsWhere]

/-- Folding `routeStep` distributes the events over the three destination
lists by their routed slot, keeping event order. -/
theorem routeStep_fold (f : SDest → RDest) :
    ∀ (evs : List (SDest × Nat)) (acc : List Nat × List Nat × List Nat),
      evs.foldl (routeStep f) acc =
        (acc.1 ++ idsWhere (fun d => f d == RDest.selfList) evs,
         acc.2.1 ++ idsWhere (fun d => f d == RDest.fr) evs,
         acc.2.2 ++ idsWhere (fun d => f d == RDest.bk) evs) := by
  intro evs
  induction evs with
  | nil =>
    intro acc
    simp [idsWhere]
  | cons e rest ih =>
    intro acc
    rw [List.foldl_cons, ih]
    cases hd : f e.1 <;>
      simp [routeStep, hd, idsWhere, List.filter_cons, beq_iff_eq, List.append_assoc]

theorem routeEvents_eq (f : SDest → RDest) (evs : List (SDest × Nat)) :
    routeEvents f evs =
      (idsWhere (fun d => f d == RDest.selfList) evs,
       idsWhere (fun d => f d == RDest.fr) evs,
       idsWhere (fun d => f d == RDest.bk) evs) := by
  rw [routeEvents, routeStep_fold]
  rfl

/-- Under the aliasing of `addPolygonTreeNodes`, the own polygon list receives
exactly the coplanar-front events. -/
theorem addPTNroute_self :
    (fun d => addPTNroute d == RDest.selfList) = (fun d => d == SDest.cf) := by
  funext d
  cases d <;> rfl

/-- Under the aliasing of `addPolygonTreeNodes`, `frontnodes` receives exactly
the front events. -/
theorem addPTNroute_front :
    (fun d => addPTNroute d == RDest.fr) = (fun d => d == SDest.fr) := by
  funext d
  cases d <;> rfl

/-- Under the aliasing of `addPolygonTreeNodes` (line 970 passes `backnodes`
for the coplanar-back slot), `backnodes` receives the coplanar-back AND the
back events. -/
theorem addPTNroute_back :
    (fun d => addPTNroute d == RDest.bk) =
      (fun d => d == SDest.cb || d == SDest.bk) := by
  funext d
  cases d <;> rfl

/-- `addChild` grows the store by one node. -/
theorem addChild_length (s : PTStore) (pid : Nat) (p : Polygon) :
    (addChild s pid p).1.length = s.length + 1 := by
  simp [addChild, setPT]

/-- The split-and-route loop of `addPolygonTreeNodes` in terms of the event
list: the own list collects exactly the coplanar-front ids, `frontnodes` the
front ids, and `backnodes` the coplanar-back and back ids, in event order. -/
theorem addPTNsplitAll_eq (pl : Plane) (ptns : List Nat) :
    ∀ (s : PTStore) (acc : List Nat × List Nat × List Nat),
      addPTNsplitAll pl s ptns acc =
        ((eventsOf pl s ptns).1,
         acc.1 ++ idsWhere (fun d => d == SDest.cf) (eventsOf pl s ptns).2,
         acc.2.1 ++ idsWhere (fun d => d == SDest.fr) (eventsOf pl s ptns).2,
         acc.2.2 ++ idsWhere (fun d => d == SDest.cb || d == SDest.bk)
           (eventsOf pl s ptns).2) := by
  induction ptns with
  | nil =>
    intro s acc
    simp [addPTNsplitAll, eventsOf, idsWhere]
  | cons pid rest ih =>
    intro s acc
    simp only [addPTNsplitAll, routeEvents_eq, addPTNroute_self, addPTNroute_front,
      addPTNroute_back]
    rw [ih]
    simp only [eventsOf]
    simp [idsWhere_append, List.append_assoc]

theorem addPTNsplitAll_nil_acc (pl : Plane) (s : PTStore) (ptns : List Nat) :
    addPTNsplitAll pl s ptns ([], [], []) =
      ((eventsOf pl s ptns).1,
       idsWhere (fun d => d == SDest.cf) (eventsOf pl s ptns).2,
       idsWhere (fun d => d == SDest.fr) (eventsOf pl s ptns).2,
       idsWhere (fun d => d == SDest.cb || d == SDest.bk) (eventsOf pl s ptns).2) := by
  rw [addPTNsplitAll_eq]
  rfl

/-- What one `addPolygonTreeNodes` iteration does for ANY input list once the
splitting plane is fixed: the polygon store advances to the event store, the
node carries the plane, exactly the coplanar-front event ids are appended to
its own polygon list, the front child is untouched when there are no front
events and exists afterwards when there are (likewise the back child for the
coplanar-back-or-back events), and the pushed tasks are the back task then
the front task, each carrying exactly its routed id list. -/
theorem addPTNrun_spec (pt : PTStore) (bsp : BspStore) (nid : Nat) (ptns : List Nat)
    (pl : Plane) (hnid : nid < bsp.length) :
    (addPTNrun pt bsp nid ptns pl).1 = (eventsOf pl pt ptns).1 ∧
    (getBsp (addPTNrun pt bsp nid ptns pl).2.1 nid).plane = some pl ∧
    (getBsp (addPTNrun pt bsp nid ptns pl).2.1 nid).polygontreenodes =
      (getBsp bsp nid).polygontreenodes ++
        idsWhere (fun d => d == SDest.cf) (eventsOf pl pt ptns).2 ∧
    (idsWhere (fun d => d == SDest.fr) (eventsOf pl pt ptns).2 = [] →
      (getBsp (addPTNrun pt bsp nid ptns pl).2.1 nid).front = (getBsp bsp nid).front) ∧
    (idsWhere (fun d => d == SDest.fr) (eventsOf pl pt ptns).2 ≠ [] →
      (getBsp (addPTNrun pt bsp nid ptns pl).2.1 nid).front.isSome = true) ∧
    (idsWhere (fun d => d == SDest.cb || d == SDest.bk) (eventsOf pl pt ptns).2 = [] →
      (getBsp (addPTNrun pt bsp nid ptns pl).2.1 nid).back = (getBsp bsp nid).back) ∧
    (idsWhere (fun d => d == SDest.cb || d == SDest.bk) (eventsOf pl pt ptns).2 ≠ [] →
      (getBsp (addPTNrun pt bsp nid ptns pl).2.1 nid).back.isSome = true) ∧
    (addPTNrun pt bsp nid ptns pl).2.2 =
      (if idsWhere (fun d => d == SDest.cb || d == SDest.bk) (eventsOf pl pt ptns).2 = []
        then []
        else [((getBsp (addPTNrun pt bsp nid ptns pl).2.1 nid).back.getD 0,
          idsWhere (fun d => d == SDest.cb || d == SDest.bk) (eventsOf pl pt ptns).2)]) ++
      (if idsWhere (fun d => d == SDest.fr) (eventsOf pl pt ptns).2 = [] then []
        else [((getBsp (addPTNrun pt bsp nid ptns pl).2.1 nid).front.getD 0,
          idsWhere (fun d => d == SDest.fr) (eventsOf pl pt ptns).2)]) := by
  simp only [addPTNrun, addPTNsplitAll_nil_acc]
  set bsp2 := setBsp bsp nid
    { getBsp bsp nid with
      plane := some pl,
      polygontreenodes := (getBsp bsp nid).polygontreenodes ++
        idsWhere (fun d => d == SDest.cf) (eventsOf pl pt ptns).2 } with hbsp2
  set frIds := idsWhere (fun d => d == SDest.fr) (eventsOf pl pt ptns).2 with hfrIds
  set bkIds := idsWhere (fun d => d == SDest.cb || d == SDest.bk)
    (eventsOf pl pt ptns).2 with hbkIds
  have hL2 : nid < bsp2.length := by
    rw [hbsp2]
    simpa [setBsp] using hnid
  have hnode : getBsp bsp2 nid =
      { getBsp bsp nid with
        plane := some pl,
        polygontreenodes := (getBsp bsp nid).polygontreenodes ++
          idsWhere (fun d => d == SDest.cf) (eventsOf pl pt ptns).2 } := by
    rw [hbsp2]
    exact getBsp_set_self _ _ _ hnid
  have hf := ensureFront_spec bsp2 nid frIds hL2
  have hb := ensureBack_spec (ensureFront bsp2 nid frIds).1 nid bkIds hf.2.2.2.1
  refine ⟨?_, ?_, ?_, ?_, ?_, ?_, ?_, ?_⟩
  · trivial
  · rw [hb.1, hf.1, hnode]
  · rw [hb.2.1, hf.2.1, hnode]
  · intro h
    have hfe := hf.2.2.2.2.2 h
    rw [hfe]
    show (getBsp (ensureBack bsp2 nid bkIds).1 nid).front = (getBsp bsp nid).front
    have hb2 := ensureBack_spec bsp2 nid bkIds hL2
    rw [hb2.2.2.1, hnode]
  · intro h
    rw [hb.2.2.1]
    exact (hf.2.2.2.2.1 h).1
  · intro h
    have hbe := hb.2.2.2.2.2 h
    rw [hbe]
    show (getBsp (ensureFront bsp2 nid frIds).1 nid).back = (getBsp bsp nid).back
    rw [hf.2.2.1, hnode]
  · intro h
    exact (hb.2.2.2.2.1 h).1
  · by_cases hbk : bkIds = []
    · have hbe := hb.2.2.2.2.2 hbk
      by_cases hfr : frIds = []
      · have hfe := hf.2.2.2.2.2 hfr
        rw [if_pos hbk, if_pos hfr, hbe, hfe]
      · have hfne := hf.2.2.2.2.1 hfr
        rw [if_pos hbk, if_neg hfr, hbe, hfne.2]
    · have hbne := hb.2.2.2.2.1 hbk
      by_cases hfr : frIds = []
      · have hfe := hf.2.2.2.2.2 hfr
        rw [if_neg hbk, if_pos hfr, hbne.2, hfe]
      · have hfne := hf.2.2.2.2.1 hfr
        rw [if_neg hbk, if_neg hfr, hbne.2, hfne.2, hb.2.2.1]

/-- C6 (amended): for every BSP node and every non-empty list of input
polygon-tree nodes, `addPolygonTreeNodes` keeps the node's plane if it has
one and otherwise picks the plane of the first input node's polygon; it then
splits every input node by this plane — at a leaf the split events are
exactly the classification of `splitPolygonByPlane` (with a SPANNING split
contributing its surviving front fragment as a front event and its back
fragment as a back event, as new children of the leaf) — and routes them so
that coplanar-front fragments, and only those, are appended to the node's own
polygon list, front fragments go to the front child (created on demand, else
untouched), and coplanar-back fragments go together with back fragments to
the back child (created on demand, else untouched), the back task being
pushed after the front task. -/
theorem C6_amended_addPTN_routing :
    (∀ (s : PTStore) (id : Nat) (pl : Plane) (p : Polygon),
      (getPT s id).children = [] → (getPT s id).polygon = some p →
      sphereFrontOut (pl.normal.dot p.boundingSphereSq.1 - pl.w)
        p.boundingSphereSq.2 = false →
      sphereBackOut (pl.normal.dot p.boundingSphereSq.1 - pl.w)
        p.boundingSphereSq.2 = false →
      (((splitPolygonByPlane pl p).type = SplitType.coplanarFront →
          ptnSplitByPlane s id pl = (s, [(SDest.cf, id)])) ∧
       ((splitPolygonByPlane pl p).type = SplitType.coplanarBack →
          ptnSplitByPlane s id pl = (s, [(SDest.cb, id)])) ∧
       ((splitPolygonByPlane pl p).type = SplitType.front →
          ptnSplitByPlane s id pl = (s, [(SDest.fr, id)])) ∧
       ((splitPolygonByPlane pl p).type = SplitType.back →
          ptnSplitByPlane s id pl = (s, [(SDest.bk, id)])) ∧
       (∀ (f b : Polygon), (splitPolygonByPlane pl p).type = SplitType.spanning →
          (splitPolygonByPlane pl p).front = some f →
          (splitPolygonByPlane pl p).back = some b →
          ptnSplitByPlane s id pl =
            ((addChild (addChild s id f).1 id b).1,
             [(SDest.fr, s.length), (SDest.bk, s.length + 1)])))) ∧
    (∀ (pt : PTStore) (bsp : BspStore) (nid : Nat) (ptns : List Nat) (pl : Plane)
      (p0 : Polygon), nid < bsp.length → ptns ≠ [] →
      ((getBsp bsp nid).plane = some pl ∨
        ((getBsp bsp nid).plane = none ∧
          (getPT pt (ptns.headD 0)).polygon = some p0 ∧ pl = p0.plane)) →
      ((addPTNprocess pt bsp nid ptns).1 = (eventsOf pl pt ptns).1 ∧
       (getBsp (addPTNprocess pt bsp nid ptns).2.1 nid).plane = some pl ∧
       (getBsp (addPTNprocess pt bsp nid ptns).2.1 nid).polygontreenodes =
         (getBsp bsp nid).polygontreenodes ++
           idsWhere (fun d => d == SDest.cf) (eventsOf pl pt ptns).2 ∧
       (idsWhere (fun d => d == SDest.fr) (eventsOf pl pt ptns).2 = [] →
         (getBsp (addPTNprocess pt bsp nid ptns).2.1 nid).front =
           (getBsp bsp nid).front) ∧
       (idsWhere (fun d => d == SDest.fr) (eventsOf pl pt ptns).2 ≠ [] →
         (getBsp (addPTNprocess pt bsp nid ptns).2.1 nid).front.isSome = true) ∧
       (idsWhere (fun d => d == SDest.cb || d == SDest.bk) (eventsOf pl pt ptns).2 = [] →
         (getBsp (addPTNprocess pt bsp nid ptns).2.1 nid).back =
           (getBsp bsp nid).back) ∧
       (idsWhere (fun d => d == SDest.cb || d == SDest.bk) (eventsOf pl pt ptns).2 ≠ [] →
         (getBsp (addPTNprocess pt bsp nid ptns).2.1 nid).back.isSome = true) ∧
       (addPTNprocess pt bsp nid ptns).2.2 =
         (if idsWhere (fun d => d == SDest.cb || d == SDest.bk)
             (eventsOf pl pt ptns).2 = [] then []
          else [((getBsp (addPTNprocess pt bsp nid ptns).2.1 nid).back.getD 0,
            idsWhere (fun d => d == SDest.cb || d == SDest.bk) (eventsOf pl pt ptns).2)]) ++
         (if idsWhere (fun d => d == SDest.fr) (eventsOf pl pt ptns).2 = [] then []
          else [((getBsp (addPTNprocess pt bsp nid ptns).2.1 nid).front.getD 0,
            idsWhere (fun d => d == SDest.fr) (eventsOf pl pt ptns).2)]))) := by
  constructor
  · intro s id pl p hleaf hpoly hsf hsb
    have hpt : ptnSplitByPlane s id pl = splitLeaf s id pl := by
      simp [ptnSplitByPlane, hleaf]
    refine ⟨?_, ?_, ?_, ?_, ?_⟩
    · intro hty
      rcases hsr : splitPolygonByPlane pl p with ⟨ty, fro, bck⟩
      rw [hsr] at hty
      simp only at hty
      subst hty
      rw [hpt]
      simp [splitLeaf, hpoly, hsf, hsb, hsr]
    · intro hty
      rcases hsr : splitPolygonByPlane pl p with ⟨ty, fro, bck⟩
      rw [hsr] at hty
      simp only at hty
      subst hty
      rw [hpt]
      simp [splitLeaf, hpoly, hsf, hsb, hsr]
    · intro hty
      rcases hsr : splitPolygonByPlane pl p with ⟨ty, fro, bck⟩
      rw [hsr] at hty
      simp only at hty
      subst hty
      rw [hpt]
      simp [splitLeaf, hpoly, hsf, hsb, hsr]
    · intro hty
      rcases hsr : splitPolygonByPlane pl p with ⟨ty, fro, bck⟩
      rw [hsr] at hty
      simp only at hty
      subst hty
      rw [hpt]
      simp [splitLeaf, hpoly, hsf, hsb, hsr]
    · intro f b hty hfr hbk
      rcases hsr : splitPolygonByPlane pl p with ⟨ty, fro, bck⟩
      rw [hsr] at hty hfr hbk
      simp only at hty hfr hbk
      subst hty
      subst hfr
      subst hbk
      have h1 : (addChild s id f).2 = s.length := rfl
      have h2 : (addChild (addChild s id f).1 id b).2 = s.length + 1 := by
        show (addChild s id f).1.length = s.length + 1
        exact addChild_length s id f
      rw [hpt]
      simp [splitLeaf, hpoly, hsf, hsb, hsr, h1, h2]
  · intro pt bsp nid ptns pl p0 hnid hne hplane
    have hrun : addPTNprocess pt bsp nid ptns = addPTNrun pt bsp nid ptns pl := by
      rcases hplane with h | ⟨h1, h2, h3⟩
      · rw [addPTNprocess, h]
      · rcases ptns with _ | ⟨a, l⟩
        · exact absurd rfl hne
        · rw [addPTNprocess, h1]
          show addPTNrun pt bsp nid (a :: l)
            ((getPT pt ((a :: l).headD 0)).polygon.getD degeneratePolygon).plane =
            addPTNrun pt bsp nid (a :: l) pl
          rw [h2, h3]
          rfl
    rw [hrun]
    exact addPTNrun_spec pt bsp nid ptns pl hnid

/-- Witness for C6: a COPLANAR-FRONT leaf split yields exactly the
coplanar-front event (part 1 at the square against its own plane), and the
two-node insertion of the square and its flipped copy into a fresh node — the
counterexample's own scenario — routes the coplanar-front fragment into the
node list, leaves the front child absent, and creates the back child for the
coplanar-back fragment (part 2 with the plane picked from the first input). -/
theorem C6_amended_addPTN_routing_witness :
    ptnSplitByPlane (addChild [PTNode.rootNode] 0 sqPoly).1 1 sqPoly.plane =
      ((addChild [PTNode.rootNode] 0 sqPoly).1, [(SDest.cf, 1)]) ∧
    (0 < ([BspNode.mk0 none] : BspStore).length ∧ ([1, 2] : List Nat) ≠ []) ∧
    (getBsp (addPTNprocess
        (addChild (addChild [PTNode.rootNode] 0 sqPoly).1 0 sqPoly.flipped).1
        [BspNode.mk0 none] 0 [1, 2]).2.1 0).plane = some sqPoly.plane ∧
    (getBsp (addPTNprocess
        (addChild (addChild [PTNode.rootNode] 0 sqPoly).1 0 sqPoly.flipped).1
        [BspNode.mk0 none] 0 [1, 2]).2.1 0).polygontreenodes = [1] ∧
    (getBsp (addPTNprocess
        (addChild (addChild [PTNode.rootNode] 0 sqPoly).1 0 sqPoly.flipped).1
        [BspNode.mk0 none] 0 [1, 2]).2.1 0).front = none ∧
    (getBsp (addPTNprocess
        (addChild (addChild [PTNode.rootNode] 0 sqPoly).1 0 sqPoly.flipped).1
        [BspNode.mk0 none] 0 [1, 2]).2.1 0).back.isSome = true := by
  have hsf : sphereFrontOut (sqPoly.plane.normal.dot sqPoly.boundingSphereSq.1 -
      sqPoly.plane.w) sqPoly.boundingSphereSq.2 = false := by
    norm_num [sphereFrontOut, sqPoly, Polygon.boundingSphereSq, Polygon.boundingBox,
      Vec3.dot, Vec3.vmin, Vec3.vmax, Vec3.plus, Vec3.minus, Vec3.times,
      Vec3.lengthSquared, EPS]
  have hsb : sphereBackOut (sqPoly.plane.normal.dot sqPoly.boundingSphereSq.1 -
      sqPoly.plane.w) sqPoly.boundingSphereSq.2 = false := by
    norm_num [sphereBackOut, sqPoly, Polygon.boundingSphereSq, Polygon.boundingBox,
      Vec3.dot, Vec3.vmin, Vec3.vmax, Vec3.plus, Vec3.minus, Vec3.times,
      Vec3.lengthSquared, EPS]
  have hty : (splitPolygonByPlane sqPoly.plane sqPoly).type =
      SplitType.coplanarFront := by
    norm_num [splitPolygonByPlane]
  have h1 := (C6_amended_addPTN_routing.1 (addChild [PTNode.rootNode] 0 sqPoly).1 1
    sqPoly.plane sqPoly rfl rfl hsf hsb).1 hty
  have h2 := C6_amended_addPTN_routing.2
    (addChild (addChild [PTNode.rootNode] 0 sqPoly).1 0 sqPoly.flipped).1
    [BspNode.mk0 none] 0 [1, 2] sqPoly.plane sqPoly (by decide) (by decide)
    (Or.inr ⟨rfl, rfl, rfl⟩)
  have hEv : (eventsOf sqPoly.plane
      (addChild (addChild [PTNode.rootNode] 0 sqPoly).1 0 sqPoly.flipped).1 [1, 2]).2 =
      [(SDest.cf, 1), (SDest.cb, 2)] := by
    norm_num [eventsOf, ptnSplitByPlane, splitLeaf, splitQueue, splitGroup,
      splitPolygonByPlane, addChild, getPT, setPT, Polygon.boundingSphereSq,
      Polygon.boundingBox, sphereFrontOut, sphereBackOut, sqPoly, Polygon.flipped,
      Plane.flipped, Vertex.flipped, Vec3.negated, Vec3.dot, EPS, Vec3.vmin, Vec3.vmax,
      Vec3.plus, Vec3.minus, Vec3.times, Vec3.lengthSquared, PTNode.rootNode]
  rw [hEv] at h2
  refine ⟨h1, ⟨by decide, by decide⟩, h2.2.1, ?_, ?_, ?_⟩
  · rw [h2.2.2.1]
    simp [getBsp, BspNode.mk0, idsWhere]
  · rw [h2.2.2.2.1 rfl]
    simp [getBsp, BspNode.mk0]
  · exact h2.2.2.2.2.2.2.1 (by decide)

/-- The per-vertex back flags of the SPANNING walk (`vertexIsBack`, computed
with the plain `t < 0` test, not the EPS thresholds). -/
def backFlags (plane : Plane) (poly : Polygon) : List Bool :=
  (poly.vertices.map fun v => plane.normal.dot v.pos - plane.w).map fun t => decide (t < 0)

/-- The number of ring edges whose endpoints lie on opposite sides of the
plane according to the walk flags. -/
def spanCrossings (plane : Plane) (poly : Polygon) : Nat :=
  (((poly.vertices.zip (backFlags plane poly)).zip
    ((poly.vertices.zip (backFlags plane poly)).rotate 1)).filter
      fun e => decide (¬e.1.2 = e.2.2)).length

/-- One walk step contributes one vertex on a non-crossing edge and three
(the endpoint once, the intersection twice) on a crossing edge. -/
theorem spanStep_length (pl : Plane) (acc : List Vertex × List Vertex)
    (e : (Vertex × Bool) × (Vertex × Bool)) :
    (spanStep pl acc e).1.length + (spanStep pl acc e).2.length =
      acc.1.length + acc.2.length + (if e.1.2 = e.2.2 then 1 else 3) := by
  unfold spanStep
  split_ifs <;> simp <;> omega

/-- Folding the walk over an edge list adds the per-edge contributions. -/
theorem spanFold_length (pl : Plane) :
    ∀ (ps : List ((Vertex × Bool) × (Vertex × Bool))) (acc : List Vertex × List Vertex),
      (ps.foldl (spanStep pl) acc).1.length + (ps.foldl (spanStep pl) acc).2.length =
        acc.1.length + acc.2.length +
          (ps.map fun e => if e.1.2 = e.2.2 then 1 else 3).sum := by
  intro ps
  induction ps with
  | nil =>
    intro acc
    simp
  | cons e rest ih =>
    intro acc
    simp only [List.foldl_cons, List.map_cons, List.sum_cons]
    rw [ih (spanStep pl acc e), spanStep_length]
    omega

/-- Summing the 1-or-3 contributions counts the edges once plus the crossing
edges twice more. -/
theorem sum_if13 : ∀ ps : List ((Vertex × Bool) × (Vertex × Bool)),
    (ps.map fun e => if e.1.2 = e.2.2 then 1 else 3).sum =
      ps.length + 2 * (ps.filter fun e => decide (¬e.1.2 = e.2.2)).length := by
  intro ps
  induction ps with
  | nil => rfl
  | cons e rest ih =>
    by_cases h : e.1.2 = e.2.2 <;>
      simp [List.filter_cons, h, ih] <;> omega

/-- C7 counterexample: the unit square (4 vertices) split by x = 0 is
SPANNING, both fragments survive with 4 vertices each, so the counts sum to
8, not 4 + 2 = 6. -/
theorem C7_vertex_count_refuted :
    (splitPolygonByPlane planeX sqPoly).type = SplitType.spanning ∧
    ((splitPolygonByPlane planeX sqPoly).front.getD degeneratePolygon).vertices.length +
      ((splitPolygonByPlane planeX sqPoly).back.getD degeneratePolygon).vertices.length = 8 ∧
    ¬(8 = sqPoly.vertices.length + 2) := by
  refine ⟨?_, ?_, by norm_num [sqPoly]⟩ <;>
    norm_num [splitPolygonByPlane, planeX, sqPoly, Vec3.dot, EPS, spanWalk, spanStep,
      dedupVerts, Plane.splitLineBetweenPoints, Plane.splitLineLambda, Vec3.minus,
      Vec3.plus, Vec3.times, Vec3.distanceToSquared, Vec3.lengthSquared, List.rotate,
      List.filterMap_cons, degeneratePolygon]

/-- C7 (amended): for a SPANNING split in which both fragments survive and
the EPS-dedup removes no vertex from either raw side, the vertex counts of
the front and back fragments sum to n + 2·c, where n is the vertex count of
the input and c is the number of ring edges crossing the plane (two
intersection vertices enter per crossing, one on each side; c = 2 for a
generic convex crossing, giving n + 4, not n + 2). -/
theorem C7_amended_span_vertex_count (plane : Plane) (poly : Polygon) (f b : Polygon)
    (_hsp : (splitPolygonByPlane plane poly).type = SplitType.spanning)
    (hfr : (splitPolygonByPlane plane poly).front = some f)
    (hbk : (splitPolygonByPlane plane poly).back = some b)
    (hdf : dedupVerts (spanWalk plane poly.vertices (backFlags plane poly)).1 =
      (spanWalk plane poly.vertices (backFlags plane poly)).1)
    (hdb : dedupVerts (spanWalk plane poly.vertices (backFlags plane poly)).2 =
      (spanWalk plane poly.vertices (backFlags plane poly)).2) :
    f.vertices.length + b.vertices.length =
      poly.vertices.length + 2 * spanCrossings plane poly := by
  unfold backFlags at hdf hdb
  unfold splitPolygonByPlane at hfr hbk
  by_cases h1 : poly.plane = plane
  · rw [if_pos h1] at hfr
    exact absurd hfr (by simp)
  · rw [if_neg h1] at hfr hbk
    simp only at hfr hbk
    by_cases h2 : (!((poly.vertices.map fun v => plane.normal.dot v.pos - plane.w).any
        fun t => decide (EPS < t)) &&
        !((poly.vertices.map fun v => plane.normal.dot v.pos - plane.w).any
        fun t => decide (t < -EPS))) = true
    · rw [if_pos h2] at hfr
      split_ifs at hfr
    · rw [if_neg h2] at hfr hbk
      by_cases h3 : (!((poly.vertices.map fun v => plane.normal.dot v.pos - plane.w).any
          fun t => decide (t < -EPS))) = true
      · rw [if_pos h3] at hfr
        exact absurd hfr (by simp)
      · rw [if_neg h3] at hfr hbk
        by_cases h4 : (!((poly.vertices.map fun v => plane.normal.dot v.pos - plane.w).any
            fun t => decide (EPS < t))) = true
        · rw [if_pos h4] at hfr
          exact absurd hfr (by simp)
        · rw [if_neg h4] at hfr hbk
          simp only at hfr hbk
          split_ifs at hfr hbk with h5 h6
          · simp only [Option.some.injEq] at hfr hbk
            rw [← hfr, ← hbk]
            simp only
            rw [hdf, hdb]
            unfold spanWalk
            rw [spanFold_length, sum_if13]
            have hlen : (((poly.vertices.zip
                ((poly.vertices.map fun v => plane.normal.dot v.pos - plane.w).map
                  fun t => decide (t < 0))).zip
                ((poly.vertices.zip
                ((poly.vertices.map fun v => plane.normal.dot v.pos - plane.w).map
                  fun t => decide (t < 0))).rotate 1))).length =
                poly.vertices.length := by
              simp
            rw [hlen]
            unfold spanCrossings backFlags
            simp only [List.length_nil]
            omega

/-- C7 witness: the square split by x = 0 has two crossing edges and no dedup
removals, so the fragment counts sum to 4 + 2·2 = 8. -/
theorem C7_amended_span_vertex_count_witness :
    (⟨[⟨⟨1, -1, 0⟩⟩, ⟨⟨1, 1, 0⟩⟩, ⟨⟨0, 1, 0⟩⟩, ⟨⟨0, -1, 0⟩⟩], 0,
        ⟨⟨0, 0, 1⟩, 0⟩⟩ : Polygon).vertices.length +
      (⟨[⟨⟨0, 1, 0⟩⟩, ⟨⟨-1, 1, 0⟩⟩, ⟨⟨-1, -1, 0⟩⟩, ⟨⟨0, -1, 0⟩⟩], 0,
        ⟨⟨0, 0, 1⟩, 0⟩⟩ : Polygon).vertices.length =
      sqPoly.vertices.length + 2 * spanCrossings planeX sqPoly := by
  refine C7_amended_span_vertex_count planeX sqPoly _ _ ?_ ?_ ?_ ?_ ?_ <;>
    norm_num [splitPolygonByPlane, planeX, sqPoly, Vec3.dot, EPS, spanWalk, spanStep,
      backFlags, dedupVerts, Plane.splitLineBetweenPoints, Plane.splitLineLambda,
      Vec3.minus, Vec3.plus, Vec3.times, Vec3.distanceToSquared, Vec3.lengthSquared,
      List.rotate, List.filterMap_cons]

end ThreeCSG
